import Mathlib

/-!
Verification development for the LinkedIn-extension repository.

This file shallowly embeds the two core subsystems of the extension:

* the Consolidation Store of `src/background/service-worker.js`
  (the `save*ToStorage` / `appendToStorage` family and the message
  dispatcher), and
* the Interception Cascade of the main-world interceptor script
  (URL filtering, `categorize`, and the `JSON.parse` fallback tier).

Modelling conventions, fixed once here:

* Stored values, message payloads and records are JSON-like values
  (`JVal`).  JavaScript objects are insertion-ordered association lists
  of string keys; `chrome.storage` round-trips exactly such values.
* Timestamps are parameters: `new Date().toISOString()` becomes an
  explicit `now : String` argument and `Date.now()` an `Int` argument.
* JavaScript `Map` keys are compared with SameValueZero.  Stored records
  pass through JSON serialization, so object-valued keys never compare
  equal across calls; `primEq` returns `false` on objects/arrays, and
  equality on primitives is structural.
* Numeric record fields are modelled as integers (`Int`); `x || 0`
  on a field read becomes `numOr0`, and `Math.round` of an exact ratio
  becomes round-half-up integer division (`jsRoundDiv`).
* Property access on `null`/`undefined` throws in JavaScript; the
  operations reached by the theorems below only access fields of object
  records, which is the well-formedness hypothesis used where relevant.
* A thrown error inside a `try` block is modelled by the operation
  returning its `catch` result (`respFail`) with the stored value
  unchanged; the specific engine error message is abstracted by a named
  string constant.
-/

/-- JSON-like runtime values (storage contents, payloads, records). -/
inductive JVal where
  | vnull
  | vbool (b : Bool)
  | vnum (n : Int)
  | vstr (s : String)
  | vobj (fields : List (String × JVal))
  | varr (items : List JVal)

/-- Fields of a JavaScript object, in insertion order. -/
abbrev JObj := List (String × JVal)

/-- First-occurrence lookup of a key in an object's field list. -/
def objGet : JObj → String → Option JVal
  | [], _ => none
  | (k, v) :: rest, key => if k = key then some v else objGet rest key

/-- Property read `v.key`: defined lookup on objects, `undefined` (none)
on every other value. -/
def JVal.getF : JVal → String → Option JVal
  | .vobj fs, k => objGet fs k
  | _, _ => none

/-- JavaScript truthiness of a possibly-undefined value (`undefined`,
`null`, `false`, `0` and `""` are falsy). -/
def truthy : Option JVal → Bool
  | none => false
  | some .vnull => false
  | some (.vbool b) => b
  | some (.vnum n) => !(n == 0)
  | some (.vstr s) => !(s == "")
  | some (.vobj _) => true
  | some (.varr _) => true

/-- Numeric read with default: `x || 0` where `x` is a numeric field. -/
def numOr0 : Option JVal → Int
  | some (.vnum n) => n
  | _ => 0

/-- Strict numeric comparison `x > bound` (false on missing or
non-numeric values, as for `undefined > 50`). -/
def gtNum : Option JVal → Int → Bool
  | some (.vnum n), bound => bound < n
  | _, _ => false

/-- Strict numeric comparison `x >= bound` (false on missing values). -/
def geNum : Option JVal → Int → Bool
  | some (.vnum n), bound => bound ≤ n
  | _, _ => false

/-- SameValueZero key comparison as used by `Map`.  Values reaching the
identity maps have been JSON-serialized, so object identity never
survives; objects and arrays compare unequal. -/
def primEq : JVal → JVal → Bool
  | .vnull, .vnull => true
  | .vbool a, .vbool b => a == b
  | .vnum a, .vnum b => a == b
  | .vstr a, .vstr b => a == b
  | _, _ => false

/-- Entries of a JavaScript `Map`, in insertion order. -/
abbrev JMap := List (JVal × JVal)

/-- `Map.prototype.get`. -/
def mapGet : JMap → JVal → Option JVal
  | [], _ => none
  | (k, v) :: rest, key => if primEq k key then some v else mapGet rest key

/-- `Map.prototype.set`: updates an existing key in place (keeping its
position and original key object), otherwise appends. -/
def mapSet : JMap → JVal → JVal → JMap
  | [], k, v => [(k, v)]
  | (k0, v0) :: rest, k, v =>
    if primEq k0 k then (k0, v) :: rest else (k0, v0) :: mapSet rest k v

/-- `Map.prototype.has`. -/
def mapHas (m : JMap) (k : JVal) : Bool := (mapGet m k).isSome

/-- `Array.from(map.values())`. -/
def mapValues (m : JMap) : List JVal := m.map (fun e => e.2)

/-- Whether an object has a key (own property check used by spread). -/
def objHas (fs : JObj) (k : String) : Bool := (objGet fs k).isSome

/-- Object spread `{...a, ...b}`: keys of `a` in order with `b`'s value
winning field-by-field, then keys only in `b`, in `b`'s order. -/
def objSpread (a b : JObj) : JObj :=
  a.map (fun kv => (kv.1, ((objGet b kv.1).getD kv.2))) ++
    b.filter (fun kv => !(objHas a kv.1))

/-- Own enumerable fields contributed by a value under spread:
objects give their fields, primitives give nothing (index properties of
strings are not modelled; they never occur in the record flows). -/
def spreadSrc : JVal → JObj
  | .vobj fs => fs
  | _ => []

/-- Fields of a possibly-undefined spread source (`{...maybeUndefined}`
spreads to nothing). -/
def optFields : Option JVal → JObj
  | some v => spreadSrc v
  | none => []

/-- Trailing property in an object literal, e.g. `{...a, k: v}`:
overwrite in place if present, else append. -/
def setF (a : JObj) (k : String) (v : JVal) : JObj := objSpread a [(k, v)]

/-- `arr.slice(-n)`: the last `n` elements. -/
def sliceLast (n : Nat) (l : List JVal) : List JVal := l.drop (l.length - n)

/-- Stable descending sort by an integer key: the unique result of the
(stable, since ES2019) `Array.prototype.sort` with comparator
`(a, b) => key(b) - key(a)`. -/
def sortByDesc {α : Type} (keyf : α → Int) (l : List α) : List α :=
  l.insertionSort (fun a b => keyf b ≤ keyf a)

/-- Round-half-up division: `Math.round(a / b)` for an exact ratio with
`b > 0`. -/
def jsRoundDiv (a : Int) (b : Int) : Int := Int.fdiv (2 * a + b) (2 * b)

/-- String coercion used where a value becomes an object key
(hashtag / post-type counting); non-primitive cases are abstract. -/
def keyStr : JVal → String
  | .vstr s => s
  | .vnum n => toString n
  | .vbool b => toString b
  | .vnull => "null"
  | .vobj _ => "[object Object]"
  | .varr _ => "[array]"

/-- Increment a counter object's entry: `counts[k] = (counts[k] || 0) + 1`. -/
def bumpCount : List (String × Int) → String → List (String × Int)
  | [], k => [(k, 1)]
  | (k0, c) :: rest, k =>
    if k0 = k then (k0, c + 1) :: rest else (k0, c) :: bumpCount rest k

/-- Nested numeric read `p.a?.b || 0`. -/
def nestedNum (p : JVal) (k1 k2 : String) : Int :=
  numOr0 ((p.getF k1).bind (fun o => o.getF k2))

/-- Structured failure response `{success: false, error: e}` produced by
every `catch` block at an operation boundary. -/
def respFail (e : String) : JObj := [("success", .vbool false), ("error", .vstr e)]

/-- Error raised when iterating a truthy non-array loaded where an array
was expected (`TypeError: x.forEach is not a function`); the exact
engine message is irrelevant and abstracted. -/
def forEachTypeError : String := "forEach is not a function"

/-- Result of `existing.data || []` (or `obj.field || []`) followed by
array iteration: falsy values give the empty array, arrays give their
items, and truthy non-arrays make the iteration throw (`none`). -/
def loadedArray : Option JVal → Option (List JVal)
  | none => some []
  | some .vnull => some []
  | some (.vbool b) => if b then none else some []
  | some (.vnum n) => if n == 0 then some [] else none
  | some (.vstr s) => if s == "" then some [] else none
  | some (.vobj _) => none
  | some (.varr xs) => some xs

/-- Build an identity index over records: for each item with a truthy
identity field, `map.set(item[key], item)`. -/
def indexByField (key : String) (items : List JVal) : JMap :=
  items.foldl
    (fun m it =>
      if truthy (it.getF key) then mapSet m ((it.getF key).getD .vnull) it else m)
    []

/-- One step of the merge pass shared by the feed-posts and my-posts
saves (the body of the `newPosts.forEach`): an incoming record with a
truthy `urn` counts as new when absent, and the stored entry becomes
`{...existing, ...incoming, lastUpdated: now}`. -/
def mergeStep (now : String) (acc : JMap × Nat) (post : JVal) : JMap × Nat :=
  if truthy (post.getF "urn") then
    let k := (post.getF "urn").getD .vnull
    let existingPost := mapGet acc.1 k
    let cnt := if existingPost.isSome then acc.2 else acc.2 + 1
    let merged : JVal := .vobj (setF (objSpread (optFields existingPost) (spreadSrc post))
      "lastUpdated" (.vstr now))
    (mapSet acc.1 k merged, cnt)
  else acc

def mergeBatchPhase (m : JMap) (batch : List JVal) (now : String) : JMap × Nat :=
  batch.foldl (mergeStep now) (m, 0)

/-- Ranking key of a feed post: `p.engagementScore || 0`. -/
def engagementScoreKey (p : JVal) : Int := numOr0 (p.getF "engagementScore")

/-- Ranking key of a comment: `c.likes || 0`. -/
def likesKey (c : JVal) : Int := numOr0 (c.getF "likes")

/-- Ranking key of an own post:
`(engagement?.likes || 0) + (engagement?.comments || 0) * 3`. -/
def myPostScoreKey (p : JVal) : Int :=
  nestedNum p "engagement" "likes" + nestedNum p "engagement" "comments" * 3

/-- Ranking key of post analytics: `p.impressions || 0`. -/
def impressionsKey (p : JVal) : Int := numOr0 (p.getF "impressions")

/-- Text length `c.text?.length || 0` (string length; arrays also expose
a length). -/
def textLen (c : JVal) : Int :=
  match c.getF "text" with
  | some (.vstr s) => (s.length : Int)
  | some (.varr l) => (l.length : Int)
  | _ => 0

/-- Hashtags of a post, `p.hashtags || []`, as counter keys. -/
def hashtagsOf (p : JVal) : List String :=
  match p.getF "hashtags" with
  | some (.varr ts) => ts.map keyStr
  | _ => []

/-- Translation of `calculateFeedStats` (service-worker.js): averages,
top-20 hashtag frequencies, post-type frequencies. -/
def calculateFeedStats (posts : List JVal) : JObj :=
  if posts.isEmpty then
    [("avgEngagement", .vnum 0), ("avgLikes", .vnum 0), ("avgComments", .vnum 0),
     ("topHashtags", .varr []), ("postTypes", .vobj [])]
  else
    let totalLikes := posts.foldl (fun s p => s + nestedNum p "engagement" "likes") 0
    let totalComments := posts.foldl (fun s p => s + nestedNum p "engagement" "comments") 0
    let totalEngagement := posts.foldl (fun s p => s + engagementScoreKey p) 0
    let hashtagCounts := posts.foldl (fun m p => (hashtagsOf p).foldl bumpCount m) []
    let topHashtags := ((sortByDesc (fun e => e.2) hashtagCounts).take 20).map
      (fun e => JVal.vobj [("tag", .vstr e.1), ("count", .vnum e.2)])
    let postTypes := posts.foldl
      (fun m p =>
        bumpCount m (if truthy (p.getF "type") then keyStr ((p.getF "type").getD .vnull) else "text"))
      []
    [("avgEngagement", .vnum (jsRoundDiv totalEngagement posts.length)),
     ("avgLikes", .vnum (jsRoundDiv totalLikes posts.length)),
     ("avgComments", .vnum (jsRoundDiv totalComments posts.length)),
     ("topHashtags", .varr topHashtags),
     ("postTypes", .vobj (postTypes.map (fun e => (e.1, JVal.vnum e.2))))]

/-- The merged, ranked, truncated feed collection: dedup map over the
loaded posts, merge pass over the batch, stable descending sort by
`engagementScore`, keep the top 500. -/
def feedAllPosts (loaded batch : List JVal) (now : String) : List JVal :=
  (sortByDesc engagementScoreKey
    (mapValues (mergeBatchPhase (indexByField "urn" loaded) batch now).1)).take 500

/-- `topHits`: the ranked posts with `engagementScore > 50`, capped at
20, in rank order. -/
def feedTopHits (loaded batch : List JVal) (now : String) : List JVal :=
  ((feedAllPosts loaded batch now).filter (fun p => gtNum (p.getF "engagementScore") 50)).take 20

/-- `newCount` reported by the feed merge. -/
def feedNewCount (loaded batch : List JVal) (now : String) : Nat :=
  (mergeBatchPhase (indexByField "urn" loaded) batch now).2

/-- The stored feed object, as a function of the merged ranked list
(every summary field is derived from `allPosts`). -/
def feedDataObj (allPosts : List JVal) (now : String) : JObj :=
  [("posts", .varr allPosts),
   ("topHits", .varr ((allPosts.filter (fun p => gtNum (p.getF "engagementScore") 50)).take 20)),
   ("totalCount", .vnum allPosts.length),
   ("lastUpdated", .vstr now),
   ("stats", .vobj (calculateFeedStats allPosts))]

/-- Translation of `saveFeedPostsToStorage`.  Note the source loads the
whole previously-stored feed *object* as if it were the posts array
(`let allPosts = existing.data || []` followed by `allPosts.forEach`),
so any truthy non-array stored value makes the operation fail and leave
storage unchanged. -/
def saveFeedPostsToStorage (stored : Option JVal) (newPosts : List JVal) (now : String) :
    JObj × Option JVal :=
  if newPosts.isEmpty then
    ([("success", .vbool true), ("count", .vnum 0), ("message", .vstr "No posts to save")], stored)
  else
    match loadedArray stored with
    | none => (respFail forEachTypeError, stored)
    | some loaded =>
      let allPosts := feedAllPosts loaded newPosts now
      let topHits := feedTopHits loaded newPosts now
      ([("success", .vbool true), ("newCount", .vnum (feedNewCount loaded newPosts now)),
        ("totalCount", .vnum allPosts.length), ("topHitsCount", .vnum topHits.length)],
       some (.vobj (feedDataObj allPosts now)))

/-- One step of the dedup pass of `saveCommentsToStorage` (the body of
the `newComments.forEach`): a comment with a truthy `urn` is added only
when the urn is not yet present (first record wins; no field merge). -/
def commentStep (acc : JMap × Nat) (c : JVal) : JMap × Nat :=
  if truthy (c.getF "urn") && !(mapHas acc.1 ((c.getF "urn").getD .vnull)) then
    (mapSet acc.1 ((c.getF "urn").getD .vnull) c, acc.2 + 1)
  else acc

def commentsAddPhase (m : JMap) (batch : List JVal) : JMap × Nat :=
  batch.foldl commentStep (m, 0)

/-- The `comments` array loaded by `saveCommentsToStorage`:
`(existing.data || {comments: [], stats: {}}).comments || []`. -/
def storedListField (stored : Option JVal) (field : String) : Option JVal :=
  match stored with
  | some v => if truthy (some v) then v.getF field else some (.varr [])
  | none => some (.varr [])

/-- The deduped, ranked, truncated comments collection. -/
def commentsAll (loaded batch : List JVal) : List JVal :=
  (sortByDesc likesKey
    (mapValues (commentsAddPhase (indexByField "urn" loaded) batch).1)).take 1000

/-- The stored comments object, as a function of the deduped ranked
list. -/
def commentsDataObj (allComments : List JVal) (now : String) : JObj :=
  let topComments := (allComments.filter (fun c => geNum (c.getF "likes") 5)).take 50
  let avgLength :=
    if allComments.length > 0 then
      jsRoundDiv (allComments.foldl (fun s c => s + textLen c) 0) allComments.length
    else 0
  let avgLikes :=
    if allComments.length > 0 then
      jsRoundDiv (allComments.foldl (fun s c => s + likesKey c) 0) allComments.length
    else 0
  [("comments", .varr allComments),
   ("topComments", .varr topComments),
   ("totalCount", .vnum allComments.length),
   ("lastUpdated", .vstr now),
   ("stats", .vobj
     [("avgLength", .vnum avgLength),
      ("avgLikes", .vnum avgLikes),
      ("topCommentsCount", .vnum topComments.length)])]

/-- Translation of `saveCommentsToStorage`. -/
def saveCommentsToStorage (stored : Option JVal) (newComments : List JVal) (now : String) :
    JObj × Option JVal :=
  if newComments.isEmpty then
    ([("success", .vbool true), ("count", .vnum 0)], stored)
  else
    match loadedArray (storedListField stored "comments") with
    | none => (respFail forEachTypeError, stored)
    | some loaded =>
      let mc := commentsAddPhase (indexByField "urn" loaded) newComments
      let allComments := commentsAll loaded newComments
      ([("success", .vbool true), ("newCount", .vnum mc.2),
        ("totalCount", .vnum allComments.length)],
       some (.vobj (commentsDataObj allComments now)))

/-- Mean of the self-reported engagement rates, in hundredths:
`(sum of parseFloat(rate) || 0 / n).toFixed(2)` produces a decimal
string in the source; it is modelled by its value rounded to hundredths
(the rate fields are numeric in the captured data). -/
def avgRateHundredths (total : Int) (n : Nat) : Int := jsRoundDiv (total * 100) n

/-- The merged, ranked, truncated my-posts collection. -/
def myPostsAll (loaded batch : List JVal) (now : String) : List JVal :=
  (sortByDesc myPostScoreKey
    (mapValues (mergeBatchPhase (indexByField "urn" loaded) batch now).1)).take 200

/-- The stored my-posts object, as a function of the merged ranked
list. -/
def myPostsDataObj (allPosts : List JVal) (now : String) : JObj :=
  let totalImpressions := allPosts.foldl (fun s p => s + nestedNum p "analytics" "impressions") 0
  let totalLikes := allPosts.foldl (fun s p => s + nestedNum p "engagement" "likes") 0
  let totalComments := allPosts.foldl (fun s p => s + nestedNum p "engagement" "comments") 0
  let totalRate := allPosts.foldl (fun s p => s + numOr0 ((p.getF "analytics").bind (fun a => a.getF "engagementRate"))) 0
  [("posts", .varr allPosts),
   ("bestPost", (allPosts.headD .vnull)),
   ("totalCount", .vnum allPosts.length),
   ("lastUpdated", .vstr now),
   ("stats", .vobj
     [("totalImpressions", .vnum totalImpressions),
      ("totalLikes", .vnum totalLikes),
      ("totalComments", .vnum totalComments),
      ("avgImpressions", .vnum (if allPosts.length > 0 then jsRoundDiv totalImpressions allPosts.length else 0)),
      ("avgLikes", .vnum (if allPosts.length > 0 then jsRoundDiv totalLikes allPosts.length else 0)),
      ("avgComments", .vnum (if allPosts.length > 0 then jsRoundDiv totalComments allPosts.length else 0)),
      ("avgEngagementRate", .vnum (if allPosts.length > 0 then avgRateHundredths totalRate allPosts.length else 0))])]

/-- Translation of `saveMyPostsToStorage`. -/
def saveMyPostsToStorage (stored : Option JVal) (newPosts : List JVal) (now : String) :
    JObj × Option JVal :=
  if newPosts.isEmpty then
    ([("success", .vbool true), ("count", .vnum 0)], stored)
  else
    match loadedArray (storedListField stored "posts") with
    | none => (respFail forEachTypeError, stored)
    | some loaded =>
      let mc := mergeBatchPhase (indexByField "urn" loaded) newPosts now
      let allPosts := myPostsAll loaded newPosts now
      ([("success", .vbool true), ("newCount", .vnum mc.2),
        ("totalCount", .vnum allPosts.length)],
       some (.vobj (myPostsDataObj allPosts now)))

/-- Default followers record `{followers: [], followerCount: 0, history: []}`. -/
def defaultFollowersData : JObj :=
  [("followers", .varr []), ("followerCount", .vnum 0), ("history", .varr [])]

/-- Replace-whole pass of the followers merge: `map.set(f.entityUrn, f)`
for each incoming follower with a truthy key. -/
def followersReplacePhase (m : JMap) (items : List JVal) : JMap :=
  items.foldl
    (fun m f =>
      if truthy (f.getF "entityUrn") then mapSet m ((f.getF "entityUrn").getD .vnull) f else m)
    m

/-- The identity-merged (replace-whole), truncated followers list. -/
def followersMergedList (existingFollowers items : List JVal) : List JVal :=
  (mapValues (followersReplacePhase (indexByField "entityUrn" existingFollowers) items)).take 500

/-- The followers record loaded by `saveFollowersToStorage`:
`existing.data || {followers: [], followerCount: 0, history: []}`. -/
def followersExistingData (stored : Option JVal) : JObj :=
  match stored with
  | some v => if truthy (some v) then spreadSrc v else defaultFollowersData
  | none => defaultFollowersData

/-- Translation of `saveFollowersToStorage`.  The follower-count branch
runs only on a truthy `followerCount`; the list branch runs only on a
non-empty `followers` array. -/
def saveFollowersToStorage (stored : Option JVal) (newData : Option JVal) (now : String) :
    JObj × Option JVal :=
  if !(truthy newData) then
    ([("success", .vbool true), ("count", .vnum 0)], stored)
  else
    let nd := newData.getD .vnull
    let existingData : JObj := followersExistingData stored
    let fc := nd.getF "followerCount"
    let withCount : Option JObj :=
      if truthy fc then
        match loadedArray (objGet existingData "history") with
        | none => none
        | some hist =>
          let hist2 := sliceLast 100
            (hist ++ [.vobj [("count", fc.getD .vnull), ("timestamp", .vstr now)]])
          some (setF (setF existingData "history" (.varr hist2)) "followerCount" (fc.getD .vnull))
      else some existingData
    match withCount with
    | none => (respFail forEachTypeError, stored)
    | some ed1 =>
      let fl := nd.getF "followers"
      let withList : Option JObj :=
        match fl with
        | some (.varr items) =>
          if items.length > 0 then
            match loadedArray (objGet ed1 "followers") with
            | none => none
            | some existingFollowers =>
              some (setF ed1 "followers" (.varr (followersMergedList existingFollowers items)))
          else some ed1
        | some (.vstr s) => if s == "" then some ed1 else none
        | _ => some ed1
      match withList with
      | none => (respFail forEachTypeError, stored)
      | some ed2 =>
        let ed3 := setF ed2 "lastUpdated" (.vstr now)
        let cnt : Int :=
          match objGet ed3 "followers" with
          | some (.varr l) => l.length
          | _ => 0
        ([("success", .vbool true), ("count", .vnum cnt),
          ("followerCount", (objGet ed3 "followerCount").getD .vnull)],
         some (.vobj ed3))

/-- Replace-whole pass of the trending dedup: each incoming topic with a
truthy `topic` key replaces the entry wholly, stamping `lastSeen`. -/
def trendingReplacePhase (m : JMap) (batch : List JVal) (now : String) : JMap :=
  batch.foldl
    (fun m t =>
      if truthy (t.getF "topic") then
        mapSet m ((t.getF "topic").getD .vnull)
          (.vobj (setF (spreadSrc t) "lastSeen" (.vstr now)))
      else m)
    m

/-- The full (pre-truncation) deduped topics list. -/
def trendingDedup (loaded batch : List JVal) (now : String) : List JVal :=
  mapValues (trendingReplacePhase (indexByField "topic" loaded) batch now)

/-- The stored trending object: `topics` truncated to 200 but
`totalCount` from the pre-truncation dedup list. -/
def trendingDataObj (allTopics : List JVal) (now : String) : JObj :=
  [("topics", .varr (allTopics.take 200)),
   ("totalCount", .vnum allTopics.length),
   ("lastUpdated", .vstr now)]

/-- Translation of `saveTrendingToStorage`: replace-whole dedup by topic
text, stamping `lastSeen`; note `totalCount` is taken from the
pre-truncation dedup result while `topics` is truncated to 200. -/
def saveTrendingToStorage (stored : Option JVal) (newTopics : List JVal) (now : String) :
    JObj × Option JVal :=
  if newTopics.isEmpty then
    ([("success", .vbool true), ("count", .vnum 0)], stored)
  else
    match loadedArray (storedListField stored "topics") with
    | none => (respFail forEachTypeError, stored)
    | some loaded =>
      let allTopics := trendingDedup loaded newTopics now
      ([("success", .vbool true), ("count", .vnum allTopics.length)],
       some (.vobj (trendingDataObj allTopics now)))

/-- Replace the first list entry satisfying the predicate. -/
def updateWhere : List JVal → (JVal → Bool) → (JVal → JVal) → Option (List JVal)
  | [], _, _ => none
  | x :: xs, p, f =>
    if p x then some (f x :: xs) else (updateWhere xs p f).map (fun l => x :: l)

/-- The loaded analytics list with the incoming record merged in place
(by `activityUrn`) or appended as new. -/
def analyticsWithNew (loaded : List JVal) (nd : JVal) (now : String) : Option (List JVal) :=
  updateWhere loaded
    (fun p => primEq ((p.getF "activityUrn").getD .vnull) ((nd.getF "activityUrn").getD .vnull))
    (fun p => .vobj (setF (objSpread (spreadSrc p) (spreadSrc nd)) "lastUpdated" (.vstr now)))

/-- The re-ranked, truncated post-analytics collection. -/
def analyticsAll (loaded : List JVal) (nd : JVal) (now : String) : List JVal :=
  (sortByDesc impressionsKey
    ((analyticsWithNew loaded nd now).getD
      (loaded ++ [.vobj (setF (setF (spreadSrc nd) "firstCaptured" (.vstr now)) "lastUpdated" (.vstr now))]))).take 100

/-- The stored post-analytics object, as a function of the merged
ranked list. -/
def postAnalyticsDataObj (allPosts : List JVal) (now : String) : JObj :=
  let totalImpressions := allPosts.foldl (fun s p => s + impressionsKey p) 0
  let totalReactions := allPosts.foldl (fun s p => s + nestedNum p "engagement" "reactions") 0
  let totalComments := allPosts.foldl (fun s p => s + nestedNum p "engagement" "comments") 0
  let totalRate := allPosts.foldl (fun s p => s + numOr0 (p.getF "engagementRate")) 0
  [("posts", .varr allPosts),
   ("totalCount", .vnum allPosts.length),
   ("lastUpdated", .vstr now),
   ("stats", .vobj
     [("totalImpressions", .vnum totalImpressions),
      ("totalReactions", .vnum totalReactions),
      ("totalComments", .vnum totalComments),
      ("avgEngagementRate", .vnum (if allPosts.length > 0 then avgRateHundredths totalRate allPosts.length else 0)),
      ("avgImpressions", .vnum (if allPosts.length > 0 then jsRoundDiv totalImpressions allPosts.length else 0)),
      ("avgReactions", .vnum (if allPosts.length > 0 then jsRoundDiv totalReactions allPosts.length else 0))])]

/-- Translation of `savePostAnalyticsToStorage` (single-record merge by
`activityUrn`). -/
def savePostAnalyticsToStorage (stored : Option JVal) (newData : Option JVal) (now : String) :
    JObj × Option JVal :=
  if !(truthy (newData.bind (fun d => d.getF "activityUrn"))) then
    (respFail "No activity URN provided", stored)
  else
    let nd := (newData.getD .vnull)
    match loadedArray (storedListField stored "posts") with
    | none => (respFail forEachTypeError, stored)
    | some loaded =>
      let isUpdate := (analyticsWithNew loaded nd now).isSome
      let allPosts := analyticsAll loaded nd now
      ([("success", .vbool true), ("totalCount", .vnum allPosts.length),
        ("isUpdate", .vbool isUpdate)],
       some (.vobj (postAnalyticsDataObj allPosts now)))

/-- Translation of `appendToStorage` (the generic captured-API log):
append a `capturedAt`-stamped copy and keep the last 1000 entries. -/
def appendToStorage (stored : Option JVal) (newData : JVal) (now : String) :
    JObj × Option JVal :=
  match loadedArray stored with
  | none => (respFail "push is not a function", stored)
  | some arr =>
    let item : JVal := .vobj (setF (spreadSrc newData) "capturedAt" (.vstr now))
    let trimmed := sliceLast 1000 (arr ++ [item])
    ([("success", .vbool true), ("count", .vnum trimmed.length)], some (.varr trimmed))

/-! ### Store state machine

One slot per storage key touched by the consolidation operations, and
one step function per incoming save/append request, for stating
properties over arbitrary operation sequences. -/

/-- The storage slots owned by the consolidation operations. -/
structure StoreState where
  feedPosts : Option JVal
  comments : Option JVal
  myPosts : Option JVal
  followers : Option JVal
  trending : Option JVal
  postAnalytics : Option JVal
  capturedApis : Option JVal

/-- The empty storage namespace (before any write). -/
def initialStore : StoreState :=
  ⟨none, none, none, none, none, none, none⟩

/-- One save/append request, with its payload. -/
inductive StoreOp where
  | feed (batch : List JVal)
  | comments (batch : List JVal)
  | myPosts (batch : List JVal)
  | followers (data : Option JVal)
  | trending (batch : List JVal)
  | postAnalytics (data : Option JVal)
  | capturedApi (data : JVal)

/-- Apply one operation (at timestamp `now`) to the store. -/
def applyOp (s : StoreState) (op : StoreOp) (now : String) : StoreState :=
  match op with
  | .feed batch => { s with feedPosts := (saveFeedPostsToStorage s.feedPosts batch now).2 }
  | .comments batch => { s with comments := (saveCommentsToStorage s.comments batch now).2 }
  | .myPosts batch => { s with myPosts := (saveMyPostsToStorage s.myPosts batch now).2 }
  | .followers d => { s with followers := (saveFollowersToStorage s.followers d now).2 }
  | .trending batch => { s with trending := (saveTrendingToStorage s.trending batch now).2 }
  | .postAnalytics d => { s with postAnalytics := (savePostAnalyticsToStorage s.postAnalytics d now).2 }
  | .capturedApi d => { s with capturedApis := (appendToStorage s.capturedApis d now).2 }

/-- Apply a sequence of timestamped operations in order. -/
def applyOps (s : StoreState) (ops : List (StoreOp × String)) : StoreState :=
  ops.foldl (fun s o => applyOp s o.1 o.2) s

/-- Length bound on the array stored under `field` of a slot's value
(vacuous when the slot does not hold such a structure). -/
def collBounded (v : Option JVal) (field : String) (cap : Nat) : Bool :=
  match v with
  | some (.vobj fs) =>
    match objGet fs field with
    | some (.varr l) => l.length ≤ cap
    | _ => true
  | _ => true

/-- Length bound on a slot holding a bare array (the captured-API log). -/
def arrBounded (v : Option JVal) (cap : Nat) : Bool :=
  match v with
  | some (.varr l) => l.length ≤ cap
  | _ => true

/-- Capacity invariant of the whole store: each persisted collection is
within its type's capacity (feed 500, comments 1000, my-posts 200,
post-analytics 100, trending 200, captured-API log 1000, followers list
500, follower-count history 100). -/
def capacityInv (s : StoreState) : Prop :=
  collBounded s.feedPosts "posts" 500 = true ∧
  collBounded s.comments "comments" 1000 = true ∧
  collBounded s.myPosts "posts" 200 = true ∧
  collBounded s.followers "followers" 500 = true ∧
  collBounded s.followers "history" 100 = true ∧
  collBounded s.trending "topics" 200 = true ∧
  collBounded s.postAnalytics "posts" 100 = true ∧
  arrBounded s.capturedApis 1000 = true

/-! ### Interception cascade (main-world interceptor) -/

/-- Substring test on character lists (`String.prototype.includes`). -/
def startsList : List Char → List Char → Bool
  | _, [] => true
  | [], _ :: _ => false
  | c :: cs, d :: ds => c == d && startsList cs ds

/-- Substring containment of `n` in `h`. -/
def containsSub (h n : List Char) : Bool :=
  if startsList h n then true
  else
    match h with
    | [] => false
    | _ :: t => containsSub t n

/-- `haystack.includes(needle)`. -/
def strIncludes (haystack needle : String) : Bool :=
  containsSub haystack.toList needle.toList

/-- ASCII-faithful `String.prototype.toLowerCase` (all table entries and
URLs involved are ASCII). -/
def lowerStr (s : String) : String := String.mk (s.toList.map Char.toLower)

/-- The capture allowlist of URL path substrings. -/
def capturePatterns : List String :=
  ["/voyager/api/", "/voyagerMessagingGraphQL/", "/li/track"]

/-- URL filter applied independently by every capture tier. -/
def shouldCapture (url : String) : Bool :=
  capturePatterns.any (fun p => strIncludes url p)

/-- The ordered GraphQL queryId → category table. -/
def graphqlCategories : List (String × List String) :=
  [("feed", ["voyagerFeedDashMainFeed", "voyagerFeedDashFeedUpdate", "voyagerFeedDashRecommendedFeed"]),
   ("myPosts", ["voyagerFeedDashProfileUpdates", "voyagerFeedDashMemberActivityFeed"]),
   ("comments", ["voyagerSocialDashComments", "voyagerSocialDashReplies"]),
   ("reactions", ["voyagerSocialDashReactions", "voyagerSocialDashReactors"]),
   ("messaging", ["messengerMailboxCounts", "messengerConversations", "messengerMessages"]),
   ("profile", ["voyagerIdentityDashProfiles", "voyagerIdentityDashProfileCards"]),
   ("network", ["voyagerRelationshipsDashConnections", "voyagerRelationshipsDashFollowers"]),
   ("analytics", ["voyagerCreatorDashAnalytics", "voyagerContentDashAnalytics", "voyagerIdentityDashWvmp"])]

/-- ASCII letter test (the character class of the queryId regex). -/
def isLetterCh (c : Char) : Bool :=
  ('a' ≤ c && c ≤ 'z') || ('A' ≤ c && c ≤ 'Z')

/-- Attempt to match `queryId=` followed by a maximal nonempty letter
run at the head of the character list. -/
def queryIdAt (cs : List Char) : Option String :=
  if startsList cs ("queryId=".toList) then
    let run := (cs.drop 8).takeWhile isLetterCh
    if run.isEmpty then none else some (String.mk run)
  else none

/-- Leftmost match of the regex `queryId=([a-zA-Z]+)` over the string. -/
def findQueryId : List Char → Option String
  | [] => none
  | c :: rest =>
    match queryIdAt (c :: rest) with
    | some q => some q
    | none => findQueryId rest

/-- Translation of `extractQueryId` (regex search). -/
def extractQueryId (url : String) : Option String := findQueryId url.toList

/-- Category match of a queryId against one table entry (patterns are
matched case-insensitively as substrings). -/
def entryMatches (q : String) (entry : String × List String) : Bool :=
  entry.2.any (fun p => strIncludes (lowerStr q) (lowerStr p))

/-- URL-substring fallback categorization (the second ordered table in
`categorize`). -/
def urlFallbackCategory (url : String) : String :=
  let u := lowerStr url
  if strIncludes u "feed" then "feed"
  else if strIncludes u "messaging" then "messaging"
  else if strIncludes u "identity" || strIncludes u "profile" then "profile"
  else if strIncludes u "relationship" || strIncludes u "connection" then "network"
  else if strIncludes u "analytics" || strIncludes u "wvmp" then "analytics"
  else "other"

/-- Translation of `categorize`: first-match over the ordered queryId
table when a queryId was extracted, else (or when no entry matches) the
URL-substring fallback. -/
def categorize (url : String) : String :=
  match extractQueryId url with
  | some q =>
    match graphqlCategories.find? (entryMatches q) with
    | some entry => entry.1
    | none => urlFallbackCategory url
  | none => urlFallbackCategory url

/-- Shared mutable state of the interceptor closure: the last-seen
voyager URL pointer with its timestamp, plus the pending-request index
used only by the fallback heuristic. -/
structure InterceptorState where
  lastVoyagerUrl : Option String
  lastVoyagerTimestamp : Int
  pendingRequests : List (String × String × Int)

/-- Tracking side of the wrapped `fetch`: record a capturable request
and refresh the recency pointer, then (in the `finally` block) purge
pending entries older than 10000 ms. -/
def trackFetchRequest (st : InterceptorState) (requestId url : String) (now : Int) :
    InterceptorState :=
  let st :=
    if shouldCapture url then
      { st with
        pendingRequests := st.pendingRequests ++ [(requestId, url, now)],
        lastVoyagerUrl := some url,
        lastVoyagerTimestamp := now }
    else st
  { st with pendingRequests := st.pendingRequests.filter (fun e => !(now - e.2.2 > 10000)) }

/-- Shape heuristic of the decode fallback: the parsed value is truthy,
`typeof` gives `"object"`, and it has a truthy `included`, `data` or
`elements` field. -/
def looksLikeApiResponse (v : JVal) : Bool :=
  truthy (some v) &&
  (match v with | .vobj _ => true | .varr _ => true | .vnull => true | _ => false) &&
  (truthy (v.getF "included") || truthy (v.getF "data") || truthy (v.getF "elements"))

/-- Events dispatched on the shared document bus (fields not read by any
claim, such as `endpoint` and `method`, are omitted). -/
structure CapturedEvent where
  ttype : String
  url : String
  category : String
  queryId : Option String
  isGraphQL : Bool
  payload : JVal
  timestamp : Int

/-- Translation of the `JSON.parse` interceptor (tier 4): dispatch only
when the recency pointer is live (strictly within 5000 ms), the value
passes the shape heuristic, and the tracked URL is feed-related
(category `feed` or the URL contains `"Feed"`); on any shape match the
pointer is cleared. -/
def jsonParseIntercept (st : InterceptorState) (result : JVal) (now : Int) :
    Option CapturedEvent × InterceptorState :=
  match st.lastVoyagerUrl with
  | none => (none, st)
  | some url =>
    if now - st.lastVoyagerTimestamp < 5000 then
      if looksLikeApiResponse result then
        let ev :=
          if categorize url == "feed" || strIncludes url "Feed" then
            some { ttype := "json-parse", url := url, category := categorize url,
                   queryId := extractQueryId url, isGraphQL := strIncludes url "/graphql",
                   payload := result, timestamp := now }
          else none
        (ev, { st with lastVoyagerUrl := none })
      else (none, st)
    else (none, st)

/-! ### Basic lemmas about the embedded primitives -/

/-! ### Concrete records, generators and relations used by the claims -/

/-- Distinct keys of an object field list. -/
def nodupKeys (a : JObj) : Prop := (a.map Prod.fst).Nodup

/-- Keys of a map are pairwise distinct under SameValueZero. -/
def pairwiseKeys (m : JMap) : Prop := m.Pairwise (fun a b => primEq a.1 b.1 = false)

/-- Every entry's key is the value's identity field (which is truthy). -/
def keyedBy (fld : String) (m : JMap) : Prop :=
  ∀ e ∈ m, e.1 = ((e.2.getF fld).getD .vnull) ∧ truthy (e.2.getF fld) = true

def recA : JVal := .vobj [("urn", .vstr "a"), ("engagementScore", .vnum 60)]

def recB : JVal := .vobj [("urn", .vstr "b"), ("engagementScore", .vnum 10)]

def recA2 : JVal := .vobj [("urn", .vstr "a"), ("engagementScore", .vnum 70), ("likes", .vnum 5)]

def commentC1a : JVal := .vobj [("urn", .vstr "c1"), ("likes", .vnum 3)]

def commentC1b : JVal :=
  .vobj [("urn", .vstr "c1"), ("likes", .vnum 9), ("text", .vstr "hi")]

/-- The feed store state after one successful save of `[recA]`. -/
def feedState1 : Option JVal := (saveFeedPostsToStorage none [recA] "T1").2

/-- The comments store state after one save of `[commentC1a]`. -/
def commentsState1 : Option JVal := (saveCommentsToStorage none [commentC1a] "T1").2

def profileUrl : String :=
  "https://www.linkedin.com/voyager/api/identity/dash/profiles?queryId=voyagerIdentityDashProfilesX"

def feedUrl : String :=
  "https://www.linkedin.com/voyager/api/graphql?queryId=voyagerFeedDashMainFeedX"

def decodedVal : JVal := .vobj [("data", .vobj [("x", .vnum 1)])]

def emptyCascade : InterceptorState := ⟨none, 0, []⟩

def stProfileTracked : InterceptorState := trackFetchRequest emptyCascade "r1" profileUrl 1000

def stFeedTracked : InterceptorState := trackFetchRequest emptyCascade "r1" feedUrl 1000

def follower1 : JVal := .vobj [("entityUrn", .vstr "f1")]

def fsPrior : JObj :=
  [("followers", .varr []), ("followerCount", .vnum 7),
   ("history", .varr [.vobj [("count", .vnum 7), ("timestamp", .vstr "T0")]])]

def ndZeroCount : JVal :=
  .vobj [("followerCount", .vnum 0), ("followers", .varr [follower1])]

def edZeroCount : JObj :=
  setF (setF fsPrior "followers" (.varr (followersMergedList [] [follower1])))
    "lastUpdated" (.vstr "T1")

/-- Bound on the array stored under one field of an object. -/
def fieldArrBounded (o : JObj) (fld : String) (cap : Nat) : Bool :=
  match objGet o fld with
  | some (.varr l) => l.length ≤ cap
  | _ => true

/-- Batch generator for the capacity scenarios: `n` records with
pairwise-distinct numeric identity keys and increasing scores. -/
def mkPosts (n : Nat) : List JVal :=
  (List.range n).map (fun (i : Nat) =>
    .vobj [("urn", .vnum ((i : Int) + 1)), ("engagementScore", .vnum (i : Int))])

/-- Length of an optional stored array (0 for anything else). -/
def arrLen : Option JVal → Nat
  | some (.varr l) => l.length
  | _ => 0

/-- Batch generator for the trending overflow scenario: `n` topics with
pairwise-distinct numeric topic keys. -/
def mkTopics (n : Nat) : List JVal :=
  (List.range n).map (fun (i : Nat) => .vobj [("topic", .vnum ((i : Int) + 1))])

/-- A single concrete trending topic. -/
def topicAi : JVal := .vobj [("topic", .vstr "ai")]

/-- All values of a map have duplicate-free field lists. -/
def valuesFieldsNodup (m : JMap) : Prop := ∀ e ∈ m, nodupKeys (spreadSrc e.2)

/-- A followers payload carrying only a truthy count. -/
def ndCount5 : JVal := .vobj [("followerCount", .vnum 5)]

/-- Translation of `checkAuthentication`: the response carries
`isAuthenticated` (JS truthiness of the cookie value) and the raw
`token` — and no `success` field. -/
def checkAuthentication (authToken : JVal) : JVal :=
  .vobj [("isAuthenticated", .vbool (truthy (some authToken))), ("token", authToken)]

/-- The message types named by the dispatcher's switch cases. -/
def knownMessageTypes : List String :=
  ["GET_COOKIES", "CHECK_AUTH", "SAVE_DATA", "GET_DATA", "GET_ALL_DATA", "CLEAR_DATA",
   "APPEND_DATA", "API_CAPTURED", "PROFILE_CAPTURED", "ANALYTICS_CAPTURED",
   "POST_ANALYTICS_CAPTURED", "AUDIENCE_DATA_CAPTURED", "SAVE_FEED_POSTS", "SAVE_COMMENTS",
   "SAVE_MY_POSTS", "SAVE_FOLLOWERS", "SAVE_TRENDING", "EXPORT_JSON", "EXPORT_CSV",
   "GET_STATS", "FETCH_PROFILE", "FETCH_ANALYTICS", "FETCH_CONNECTIONS",
   "FETCH_CONNECTIONS_SUMMARY", "FETCH_ALL_CONNECTIONS", "FETCH_POSTS", "FETCH_FEED_POSTS",
   "FETCH_ALL_DATA"]

/-- Relational model of the `chrome.runtime.onMessage` dispatcher: which
response values each message type can be answered with.  IO-backed
handlers are abstracted by their return shapes (every return statement
of every dispatched function other than `checkAuthentication` starts
with a boolean `success` field, with an `error` string on failure);
the storage-consolidation handlers are tied to their executable
translations; `checkAuthentication` is translated exactly; any type not
in the switch falls to the structured default. -/
inductive HandlesTo : String → JVal → Prop
  | ok (t : String) (h : t ∈ knownMessageTypes) (ht : t ≠ "CHECK_AUTH") (payload : JObj) :
      HandlesTo t (.vobj (("success", .vbool true) :: payload))
  | err (t : String) (h : t ∈ knownMessageTypes) (ht : t ≠ "CHECK_AUTH") (e : String)
      (rest : JObj) :
      HandlesTo t (.vobj (("success", .vbool false) :: ("error", .vstr e) :: rest))
  | checkAuth (authToken : JVal) : HandlesTo "CHECK_AUTH" (checkAuthentication authToken)
  | appendData (stored : Option JVal) (nd : JVal) (now : String) :
      HandlesTo "APPEND_DATA" (.vobj (appendToStorage stored nd now).1)
  | apiCaptured (stored : Option JVal) (endpoint method respData url : JVal) (now : String) :
      HandlesTo "API_CAPTURED" (.vobj (appendToStorage stored
        (.vobj [("endpoint", endpoint), ("method", method), ("responseData", respData),
          ("url", url)]) now).1)
  | postAnalyticsCaptured (stored : Option JVal) (nd : Option JVal) (now : String) :
      HandlesTo "POST_ANALYTICS_CAPTURED" (.vobj (savePostAnalyticsToStorage stored nd now).1)
  | saveFeedPosts (stored : Option JVal) (posts : List JVal) (now : String) :
      HandlesTo "SAVE_FEED_POSTS" (.vobj (saveFeedPostsToStorage stored posts now).1)
  | saveComments (stored : Option JVal) (comments : List JVal) (now : String) :
      HandlesTo "SAVE_COMMENTS" (.vobj (saveCommentsToStorage stored comments now).1)
  | saveMyPosts (stored : Option JVal) (posts : List JVal) (now : String) :
      HandlesTo "SAVE_MY_POSTS" (.vobj (saveMyPostsToStorage stored posts now).1)
  | saveFollowers (stored : Option JVal) (nd : Option JVal) (now : String) :
      HandlesTo "SAVE_FOLLOWERS" (.vobj (saveFollowersToStorage stored nd now).1)
  | saveTrending (stored : Option JVal) (topics : List JVal) (now : String) :
      HandlesTo "SAVE_TRENDING" (.vobj (saveTrendingToStorage stored topics now).1)
  | unknown (t : String) (h : ¬ t ∈ knownMessageTypes) :
      HandlesTo t (.vobj (respFail "Unknown message type"))

theorem primEq_eq {a b : JVal} (h : primEq a b = true) : a = b := by
  cases a <;> cases b <;> simp_all [primEq]

theorem primEq_symm (a b : JVal) : primEq a b = primEq b a := by
  cases a <;> cases b <;> simp [primEq] <;> exact ⟨fun h => h.symm, fun h => h.symm⟩

theorem mapGet_mapSet (m : JMap) (k k2 : JVal) (x : JVal) :
    mapGet (mapSet m k x) k2 = if primEq k k2 then some x else mapGet m k2 := by
  induction m with
  | nil => simp [mapSet, mapGet]
  | cons e rest ih =>
    obtain ⟨k0, v0⟩ := e
    by_cases h0 : primEq k0 k = true
    · have hk : k0 = k := primEq_eq h0
      subst hk
      by_cases h2 : primEq k0 k2 = true <;> simp [mapSet, h0, mapGet, h2]
    · simp only [mapSet, h0, if_false, Bool.false_eq_true]
      by_cases h2 : primEq k0 k2 = true
      · have hk : k0 = k2 := primEq_eq h2
        subst hk
        have : primEq k k0 = false := by
          rw [primEq_symm]; exact Bool.eq_false_iff.mpr h0
        simp [mapGet, h2, this]
      · simp [mapGet, h2, ih]

theorem mapGet_eq_none_iff (m : JMap) (k : JVal) :
    mapGet m k = none ↔ ∀ e ∈ m, primEq e.1 k = false := by
  induction m with
  | nil => simp [mapGet]
  | cons e rest ih =>
    obtain ⟨k0, v0⟩ := e
    simp only [mapGet, List.mem_cons, forall_eq_or_imp]
    by_cases h0 : primEq k0 k = true
    · rw [if_pos h0]
      simp [h0]
    · rw [if_neg h0]
      simp [ih, Bool.eq_false_iff.mpr h0]

theorem mapSet_of_fresh {m : JMap} {k : JVal} (x : JVal) (h : mapGet m k = none) :
    mapSet m k x = m ++ [(k, x)] := by
  induction m with
  | nil => simp [mapSet]
  | cons e rest ih =>
    obtain ⟨k0, v0⟩ := e
    simp only [mapGet] at h
    by_cases h0 : primEq k0 k = true
    · simp [h0] at h
    · simp only [h0, if_false, Bool.false_eq_true] at h
      simp [mapSet, h0, ih h]

theorem mapValues_append (a b : JMap) : mapValues (a ++ b) = mapValues a ++ mapValues b := by
  simp [mapValues]

/-- Lookup distributes over append (first list wins). -/
theorem objGet_append (a b : JObj) (k : String) :
    objGet (a ++ b) k = Option.or (objGet a k) (objGet b k) := by
  induction a with
  | nil => simp [objGet, Option.or]
  | cons e rest ih =>
    obtain ⟨k0, v0⟩ := e
    by_cases h0 : k0 = k
    · simp [objGet, h0, Option.or]
    · simp [objGet, h0, ih]

theorem objGet_map_keyFun (a : JObj) (f : String → JVal → JVal) (k : String) :
    objGet (a.map (fun kv => (kv.1, f kv.1 kv.2))) k = (objGet a k).map (f k) := by
  induction a with
  | nil => simp [objGet]
  | cons e rest ih =>
    obtain ⟨k0, v0⟩ := e
    by_cases h0 : k0 = k
    · subst h0; simp [objGet]
    · simp [objGet, h0, ih]

theorem objGet_filter_key (b : JObj) (p : String → Bool) (k : String) :
    objGet (b.filter (fun kv => p kv.1)) k = if p k then objGet b k else none := by
  induction b with
  | nil => simp [objGet]
  | cons e rest ih =>
    obtain ⟨k0, v0⟩ := e
    by_cases h0 : k0 = k
    · subst h0
      by_cases hp : p k0 = true
      · simp [List.filter, hp, objGet, ih]
      · simp only [List.filter, hp]
        simp only [Bool.false_eq_true, if_false] at *
        simp [ih, hp]
    · by_cases hp : p k0 = true
      · simp [List.filter, hp, objGet, h0, ih]
      · simp [List.filter, hp, objGet, h0, ih]

/-- Field lookup through a spread: the right side wins field-by-field,
fields only on the left are preserved. -/
theorem objGet_spread (a b : JObj) (k : String) :
    objGet (objSpread a b) k = Option.or (objGet b k) (objGet a k) := by
  unfold objSpread
  rw [objGet_append]
  have hm := objGet_map_keyFun a (fun k2 v => (objGet b k2).getD v) k
  have hf := objGet_filter_key b (fun k2 => !objHas a k2) k
  rw [hm, hf]
  cases ha : objGet a k <;> cases hb : objGet b k <;>
    simp [objHas, ha, hb, Option.or]

theorem objGet_setF_same (a : JObj) (k : String) (v : JVal) :
    objGet (setF a k v) k = some v := by
  rw [setF, objGet_spread]
  simp [objGet]

theorem objGet_setF_other (a : JObj) (k k2 : String) (v : JVal) (h : k2 ≠ k) :
    objGet (setF a k v) k2 = objGet a k2 := by
  rw [setF, objGet_spread]
  simp [objGet, Ne.symm h, Option.or]

/-- Keys of a spread: left keys in order, then right-only keys. -/
theorem objSpread_keys (a b : JObj) :
    (objSpread a b).map Prod.fst =
      a.map Prod.fst ++ (b.filter (fun kv => !objHas a kv.1)).map Prod.fst := by
  simp [objSpread]

theorem objGet_eq_none_iff (a : JObj) (k : String) :
    objGet a k = none ↔ k ∉ a.map Prod.fst := by
  induction a with
  | nil => simp [objGet]
  | cons e rest ih =>
    obtain ⟨k0, v0⟩ := e
    by_cases h0 : k0 = k
    · simp [objGet, h0]
    · simp [objGet, h0, ih, Ne.symm h0]

/-- Two field lists with the same key sequence and the same lookups are
equal (keys on the left assumed distinct). -/
theorem objExt {a b : JObj} (ha : nodupKeys a)
    (hk : a.map Prod.fst = b.map Prod.fst) (hv : ∀ k, objGet a k = objGet b k) : a = b := by
  induction a generalizing b with
  | nil =>
    cases b with
    | nil => rfl
    | cons e rest => simp at hk
  | cons e rest ih =>
    obtain ⟨k0, v0⟩ := e
    cases b with
    | nil => simp at hk
    | cons e2 rest2 =>
      obtain ⟨k2, v2⟩ := e2
      simp only [List.map_cons, List.cons.injEq] at hk
      obtain ⟨hk0, hkrest⟩ := hk
      subst hk0
      have hv0 := hv k0
      simp only [objGet, if_pos rfl] at hv0
      have hnodup : nodupKeys rest := (List.nodup_cons.mp ha).2
      have hnotin : k0 ∉ rest.map Prod.fst := (List.nodup_cons.mp ha).1
      have hrest : ∀ k, objGet rest k = objGet rest2 k := by
        intro k
        by_cases hkk : k = k0
        · subst hkk
          have h1 : objGet rest k = none := (objGet_eq_none_iff _ _).mpr hnotin
          have h2 : objGet rest2 k = none := by
            rw [objGet_eq_none_iff, ← hkrest]
            exact hnotin
          rw [h1, h2]
        · have h3 := hv k
          simp only [objGet] at h3
          rw [if_neg (fun h : k0 = k => hkk h.symm), if_neg (fun h : k0 = k => hkk h.symm)] at h3
          exact h3
      obtain rfl : v0 = v2 := Option.some.inj hv0
      rw [ih hnodup hkrest hrest]

/-- Setting a field to the value it already holds is the identity (for
an object without duplicate keys). -/
theorem setF_self {a : JObj} {k : String} {v : JVal} (ha : nodupKeys a)
    (h : objGet a k = some v) : setF a k v = a := by
  have hkeys : (setF a k v).map Prod.fst = a.map Prod.fst := by
    rw [setF, objSpread_keys]
    have : objHas a k = true := by simp [objHas, h]
    simp [List.filter, this]
  refine objExt ?_ hkeys ?_
  · show ((setF a k v).map Prod.fst).Nodup
    rw [hkeys]
    exact ha
  · intro k2
    by_cases hk2 : k2 = k
    · subst hk2
      rw [objGet_setF_same, h]
    · rw [objGet_setF_other _ _ _ _ hk2]

/-! ### Sorting wrapper lemmas -/

theorem sortByDesc_sorted {α : Type} (keyf : α → Int) (l : List α) :
    (sortByDesc keyf l).Sorted (fun a b => keyf b ≤ keyf a) := by
  haveI : IsTotal α (fun a b => keyf b ≤ keyf a) := ⟨fun a b => le_total (keyf b) (keyf a)⟩
  haveI : IsTrans α (fun a b => keyf b ≤ keyf a) :=
    ⟨fun _ _ _ h1 h2 => le_trans h2 h1⟩
  exact List.sorted_insertionSort _ l

theorem sortByDesc_of_sorted {α : Type} {keyf : α → Int} {l : List α}
    (h : l.Sorted (fun a b => keyf b ≤ keyf a)) : sortByDesc keyf l = l :=
  h.insertionSort_eq

theorem sortByDesc_length {α : Type} (keyf : α → Int) (l : List α) :
    (sortByDesc keyf l).length = l.length :=
  List.length_insertionSort _ l

/-- Stable sort of a sorted block followed by a dominated tail: the
block stays in place (the eviction-replay argument). -/
theorem sortByDesc_append_dominant {α : Type} {keyf : α → Int} {s e : List α}
    (hs : s.Sorted (fun a b => keyf b ≤ keyf a))
    (hd : ∀ x ∈ s, ∀ y ∈ e, keyf y ≤ keyf x) :
    sortByDesc keyf (s ++ e) = s ++ sortByDesc keyf e := by
  induction s with
  | nil => simp
  | cons a s2 ih =>
    have hcons : ∀ b ∈ s2 ++ e, keyf b ≤ keyf a := by
      intro b hb
      rcases List.mem_append.mp hb with h | h
      · exact List.rel_of_sorted_cons hs b h
      · exact hd a (List.mem_cons_self _ _) b h
    have step := List.insertionSort_cons (r := fun a b => keyf b ≤ keyf a)
      (a := a) (l := s2 ++ e) hcons
    calc sortByDesc keyf (a :: s2 ++ e)
        = a :: sortByDesc keyf (s2 ++ e) := step
      _ = a :: (s2 ++ sortByDesc keyf e) := by
          rw [ih hs.of_cons (fun x hx y hy => hd x (List.mem_cons_of_mem _ hx) y hy)]
      _ = (a :: s2) ++ sortByDesc keyf e := rfl

/-! ### Map invariants and phase lemmas -/

theorem mapGet_append (a b : JMap) (k : JVal) :
    mapGet (a ++ b) k = Option.or (mapGet a k) (mapGet b k) := by
  induction a with
  | nil => simp [mapGet, Option.or]
  | cons e rest ih =>
    obtain ⟨k0, v0⟩ := e
    by_cases h0 : primEq k0 k = true
    · simp [mapGet, h0, Option.or]
    · simp [mapGet, h0, ih]

theorem mem_mapSet {m : JMap} {k v : JVal} {e : JVal × JVal} (h : e ∈ mapSet m k v) :
    e ∈ m ∨ e = (k, v) := by
  induction m with
  | nil => simp [mapSet] at h; simp [h]
  | cons e0 rest ih =>
    obtain ⟨k0, v0⟩ := e0
    by_cases h0 : primEq k0 k = true
    · simp only [mapSet, h0, if_true, List.mem_cons] at h
      rcases h with h | h
      · right
        have : k0 = k := primEq_eq h0
        simp [h, this]
      · left; exact List.mem_cons_of_mem _ h
    · simp only [mapSet, h0, Bool.false_eq_true, if_false, List.mem_cons] at h
      rcases h with h | h
      · left; simp [h]
      · rcases ih h with h2 | h2
        · left; exact List.mem_cons_of_mem _ h2
        · right; exact h2

theorem pairwiseKeys_mapSet {m : JMap} (k v : JVal) (h : pairwiseKeys m) :
    pairwiseKeys (mapSet m k v) := by
  induction m with
  | nil =>
    simp [mapSet, pairwiseKeys]
  | cons e rest ih =>
    obtain ⟨k0, v0⟩ := e
    have hhead := (List.pairwise_cons.mp h).1
    have htail := (List.pairwise_cons.mp h).2
    by_cases h0 : primEq k0 k = true
    · simp only [mapSet, h0, if_true]
      exact List.pairwise_cons.mpr ⟨hhead, htail⟩
    · simp only [mapSet, h0, Bool.false_eq_true, if_false]
      refine List.pairwise_cons.mpr ⟨?_, ih htail⟩
      intro e2 he2
      rcases mem_mapSet he2 with h2 | h2
      · exact hhead e2 h2
      · subst h2
        exact Bool.eq_false_iff.mpr h0

theorem keyedBy_mapSet {fld : String} {m : JMap} {k v : JVal} (h : keyedBy fld m)
    (hk : k = (v.getF fld).getD .vnull) (ht : truthy (v.getF fld) = true) :
    keyedBy fld (mapSet m k v) := by
  intro e he
  rcases mem_mapSet he with h2 | h2
  · exact h e h2
  · subst h2; exact ⟨hk, ht⟩

theorem foldl_inv {σ β : Type _} (P : σ → Prop) (step : σ → β → σ)
    (h : ∀ s b, P s → P (step s b)) : ∀ (l : List β) (s : σ), P s → P (l.foldl step s) := by
  intro l
  induction l with
  | nil => intro s hs; exact hs
  | cons b rest ih => intro s hs; exact ih _ (h s b hs)

theorem foldl_inv_mem {σ β : Type _} (P : σ → Prop) (step : σ → β → σ) (l : List β)
    (h : ∀ s b, b ∈ l → P s → P (step s b)) : ∀ (s : σ), P s → P (l.foldl step s) := by
  induction l with
  | nil => intro s hs; exact hs
  | cons b rest ih =>
    intro s hs
    exact ih (fun s2 b2 hb2 => h s2 b2 (List.mem_cons_of_mem _ hb2)) _
      (h s b (List.mem_cons_self _ _) hs)

theorem mapGet_some_mem {m : JMap} {k v : JVal} (h : mapGet m k = some v) :
    ∃ k0, (k0, v) ∈ m ∧ primEq k0 k = true := by
  induction m with
  | nil => simp [mapGet] at h
  | cons e rest ih =>
    obtain ⟨k0, v0⟩ := e
    by_cases h0 : primEq k0 k = true
    · simp only [mapGet, h0, if_true, Option.some.injEq] at h
      exact ⟨k0, by simp [h], h0⟩
    · simp only [mapGet, h0, Bool.false_eq_true, if_false] at h
      obtain ⟨k1, hmem, hk1⟩ := ih h
      exact ⟨k1, List.mem_cons_of_mem _ hmem, hk1⟩

theorem mapGet_of_mem_pairwise {m : JMap} {k v : JVal} (hm : (k, v) ∈ m)
    (hp : pairwiseKeys m) (hk : primEq k k = true) : mapGet m k = some v := by
  induction m with
  | nil => simp at hm
  | cons e rest ih =>
    obtain ⟨k0, v0⟩ := e
    rcases List.mem_cons.mp hm with h2 | h2
    · obtain ⟨hk0, hv0⟩ := Prod.mk.injEq .. ▸ h2.symm
      subst hk0; subst hv0
      simp [mapGet, hk]
    · have hhead := (List.pairwise_cons.mp hp).1 _ h2
      simp only at hhead
      simp only [mapGet, hhead, Bool.false_eq_true, if_false]
      exact ih h2 (List.pairwise_cons.mp hp).2

theorem mapSet_same {m : JMap} {k v : JVal} (h : mapGet m k = some v) : mapSet m k v = m := by
  induction m with
  | nil => simp [mapGet] at h
  | cons e rest ih =>
    obtain ⟨k0, v0⟩ := e
    by_cases h0 : primEq k0 k = true
    · simp only [mapGet, h0, if_true, Option.some.injEq] at h
      simp [mapSet, h0, h]
    · simp only [mapGet, h0, Bool.false_eq_true, if_false] at h
      simp [mapSet, h0, ih h]

theorem getF_spreadSrc (p : JVal) (k : String) : objGet (spreadSrc p) k = p.getF k := by
  cases p <;> rfl

theorem truthy_isSome {o : Option JVal} (h : truthy o = true) : ∃ u, o = some u := by
  cases o with
  | none => simp [truthy] at h
  | some v => exact ⟨v, rfl⟩

theorem objSpread_nil_left (b : JObj) : objSpread [] b = b := by
  unfold objSpread
  simp only [List.map_nil, List.nil_append]
  exact List.filter_eq_self.mpr (fun a _ => rfl)

/-- Inserting a batch of identity-fresh, pairwise-distinct records
appends them in order (the shape shared by `indexByField` and the
replace-whole passes). -/
theorem indexFold_fresh (fld : String) (items : List JVal) (m : JMap)
    (hall : ∀ it ∈ items, truthy (it.getF fld) = true)
    (hfresh : ∀ it ∈ items, mapGet m ((it.getF fld).getD .vnull) = none)
    (hpair : items.Pairwise (fun a b =>
      primEq ((a.getF fld).getD .vnull) ((b.getF fld).getD .vnull) = false)) :
    items.foldl
        (fun m it => if truthy (it.getF fld) then mapSet m ((it.getF fld).getD .vnull) it else m) m
      = m ++ items.map (fun it => (((it.getF fld).getD .vnull), it)) := by
  induction items generalizing m with
  | nil => simp
  | cons it rest ih =>
    have ht := hall it (List.mem_cons_self _ _)
    simp only [List.foldl_cons, ht, if_true]
    rw [mapSet_of_fresh _ (hfresh it (List.mem_cons_self _ _))]
    have hpairhead := (List.pairwise_cons.mp hpair).1
    rw [ih (m ++ [(((it.getF fld).getD .vnull), it)])
      (fun q hq => hall q (List.mem_cons_of_mem _ hq))
      (fun q hq => by
        rw [mapGet_append, hfresh q (List.mem_cons_of_mem _ hq)]
        simp [mapGet, hpairhead q hq, Option.or])
      (List.pairwise_cons.mp hpair).2]
    simp

theorem indexByField_eq (fld : String) (items : List JVal)
    (hall : ∀ it ∈ items, truthy (it.getF fld) = true)
    (hpair : items.Pairwise (fun a b =>
      primEq ((a.getF fld).getD .vnull) ((b.getF fld).getD .vnull) = false)) :
    indexByField fld items = items.map (fun it => (((it.getF fld).getD .vnull), it)) := by
  have h := indexFold_fresh fld items [] hall (fun it _ => rfl) hpair
  simpa [indexByField] using h

theorem indexByField_inv (fld : String) (items : List JVal) :
    keyedBy fld (indexByField fld items) ∧ pairwiseKeys (indexByField fld items) := by
  unfold indexByField
  refine foldl_inv (fun m => keyedBy fld m ∧ pairwiseKeys m) _ ?_ items []
    ⟨by intro e he; simp at he, List.Pairwise.nil⟩
  rintro m it ⟨hk, hp⟩
  by_cases ht : truthy (it.getF fld) = true
  · simp only [ht, if_true]
    exact ⟨keyedBy_mapSet hk rfl ht, pairwiseKeys_mapSet _ _ hp⟩
  · rw [if_neg ht]
    exact ⟨hk, hp⟩

/-- The merged record produced by the merge pass keeps the incoming
record's value on every field other than `lastUpdated`, wherever the
incoming record has the field. -/
theorem mergeVal_getF (X : JObj) (p : JVal) (now : String) (fld : String)
    (hfld : fld ≠ "lastUpdated") (hp : (p.getF fld).isSome = true) :
    (JVal.vobj (setF (objSpread X (spreadSrc p)) "lastUpdated" (.vstr now))).getF fld
      = p.getF fld := by
  have hred : (JVal.vobj (setF (objSpread X (spreadSrc p)) "lastUpdated" (.vstr now))).getF fld
      = objGet (setF (objSpread X (spreadSrc p)) "lastUpdated" (.vstr now)) fld := rfl
  rw [hred, objGet_setF_other _ _ _ _ hfld, objGet_spread, getF_spreadSrc]
  obtain ⟨u, hu⟩ := Option.isSome_iff_exists.mp hp
  simp [hu, Option.or]

theorem mergeBatchPhase_inv {m : JMap} (batch : List JVal) (now : String)
    (h : keyedBy "urn" m ∧ pairwiseKeys m) :
    keyedBy "urn" (mergeBatchPhase m batch now).1 ∧
      pairwiseKeys (mergeBatchPhase m batch now).1 := by
  unfold mergeBatchPhase
  refine foldl_inv (fun s : JMap × Nat => keyedBy "urn" s.1 ∧ pairwiseKeys s.1) _ ?_ batch (m, 0) h
  rintro s p ⟨hk, hp⟩
  unfold mergeStep
  by_cases ht : truthy (p.getF "urn") = true
  · simp only [ht, if_true]
    have hsome : (p.getF "urn").isSome = true := by
      obtain ⟨u, hu⟩ := truthy_isSome ht
      simp [hu]
    refine ⟨keyedBy_mapSet hk ?_ ?_, pairwiseKeys_mapSet _ _ hp⟩
    · rw [mergeVal_getF _ _ _ _ (by simp) hsome]
    · rw [mergeVal_getF _ _ _ _ (by simp) hsome]
      exact ht
  · rw [if_neg ht]
    exact ⟨hk, hp⟩

theorem commentsAddPhase_inv {m : JMap} (batch : List JVal)
    (h : keyedBy "urn" m ∧ pairwiseKeys m) :
    keyedBy "urn" (commentsAddPhase m batch).1 ∧ pairwiseKeys (commentsAddPhase m batch).1 := by
  unfold commentsAddPhase
  refine foldl_inv (fun s : JMap × Nat => keyedBy "urn" s.1 ∧ pairwiseKeys s.1) _ ?_ batch (m, 0) h
  rintro s c ⟨hk, hp⟩
  unfold commentStep
  split
  next hcond =>
    simp only [Bool.and_eq_true] at hcond
    exact ⟨keyedBy_mapSet hk rfl hcond.1, pairwiseKeys_mapSet _ _ hp⟩
  next => exact ⟨hk, hp⟩

/-- The first record wins in the comments pass: when every incoming urn
is already present, the pass changes nothing and reports zero new. -/
theorem commentsAddPhase_allHas {m : JMap} {batch : List JVal}
    (h : ∀ c ∈ batch, truthy (c.getF "urn") = true →
      mapHas m ((c.getF "urn").getD .vnull) = true) :
    commentsAddPhase m batch = (m, 0) := by
  unfold commentsAddPhase
  refine foldl_inv_mem (fun s => s = ((m : JMap), (0 : Nat))) _ batch ?_ (m, 0) rfl
  rintro s c hc rfl
  unfold commentStep
  split
  next hcond =>
    exfalso
    simp only [Bool.and_eq_true] at hcond
    have hhas := h c hc hcond.1
    simp [hhas] at hcond
  next => rfl

/-- The map component of the merge fold ignores the running count. -/
theorem mergeFold_fst (l : List JVal) (now : String) :
    ∀ (m : JMap) (c : Nat), (l.foldl (mergeStep now) (m, c)).1 = (mergeBatchPhase m l now).1 := by
  induction l with
  | nil => intro m c; rfl
  | cons p rest ih =>
    intro m c
    have hfst : ∀ c2 : Nat, (mergeStep now (m, c2) p).1 = (mergeStep now (m, 0) p).1 := by
      intro c2
      unfold mergeStep
      by_cases ht : truthy (p.getF "urn") = true
      · simp [ht]
      · simp [ht]
    have hpair : ∀ c2 : Nat,
        ((mergeStep now (m, c2) p).1, (mergeStep now (m, c2) p).2) = mergeStep now (m, c2) p := by
      intro c2; rfl
    rw [mergeBatchPhase, List.foldl_cons, List.foldl_cons]
    calc (List.foldl (mergeStep now) (mergeStep now (m, c) p) rest).1
        = (mergeBatchPhase (mergeStep now (m, c) p).1 rest now).1 := by
          rw [← hpair c]; exact ih _ _
      _ = (mergeBatchPhase (mergeStep now (m, 0) p).1 rest now).1 := by rw [hfst c]
      _ = (List.foldl (mergeStep now) (mergeStep now (m, 0) p) rest).1 := by
          rw [← hpair 0]; exact (ih _ _).symm

/-- Merging an appended batch merges the pieces in sequence. -/
theorem mergeBatchPhase_append (m : JMap) (l1 l2 : List JVal) (now : String) :
    (mergeBatchPhase m (l1 ++ l2) now).1 =
      (mergeBatchPhase (mergeBatchPhase m l1 now).1 l2 now).1 := by
  rw [mergeBatchPhase, List.foldl_append]
  have hpair : ((mergeBatchPhase m l1 now).1, (mergeBatchPhase m l1 now).2)
      = l1.foldl (mergeStep now) (m, 0) := rfl
  rw [← hpair]
  exact mergeFold_fst l2 now _ _

/-- A merge over records none of which match key `k` leaves the entry at
`k` unchanged. -/
theorem mergeBatchPhase_preserve_at (l2 : List JVal) (now : String) (k : JVal)
    (hno : ∀ q ∈ l2, truthy (q.getF "urn") = true →
      primEq ((q.getF "urn").getD .vnull) k = false) :
    ∀ m : JMap, mapGet (mergeBatchPhase m l2 now).1 k = mapGet m k := by
  induction l2 with
  | nil => intro m; rfl
  | cons q rest ih =>
    intro m
    rw [mergeBatchPhase, List.foldl_cons]
    have hq : ∀ c : Nat, mapGet ((List.foldl (mergeStep now) (mergeStep now (m, 0) q) rest)).1 k
        = mapGet (mergeStep now (m, 0) q).1 k := by
      intro c
      have hpair : ((mergeStep now (m, 0) q).1, (mergeStep now (m, 0) q).2)
          = mergeStep now (m, 0) q := rfl
      rw [← hpair, mergeFold_fst]
      exact ih (fun q2 hq2 => hno q2 (List.mem_cons_of_mem _ hq2)) _
    rw [hq 0]
    unfold mergeStep
    by_cases ht : truthy (q.getF "urn") = true
    · simp only [ht, if_true]
      rw [mapGet_mapSet]
      simp [hno q (List.mem_cons_self _ _) ht]
    · simp [ht]

/-- After the merge pass, the entry for a record's urn (when no later
batch record shares it) is the shallow merge of the pre-existing entry
with that record, stamped `lastUpdated`. -/
theorem mergeBatchPhase_get_last (m : JMap) (l1 : List JVal) (p : JVal) (l2 : List JVal)
    (now : String) (ht : truthy (p.getF "urn") = true)
    (hprim : primEq ((p.getF "urn").getD .vnull) ((p.getF "urn").getD .vnull) = true)
    (hno : ∀ q ∈ l2, truthy (q.getF "urn") = true →
      primEq ((q.getF "urn").getD .vnull) ((p.getF "urn").getD .vnull) = false) :
    mapGet (mergeBatchPhase m (l1 ++ p :: l2) now).1 ((p.getF "urn").getD .vnull)
      = some (.vobj (setF
          (objSpread
            (optFields (mapGet (mergeBatchPhase m l1 now).1 ((p.getF "urn").getD .vnull)))
            (spreadSrc p))
          "lastUpdated" (.vstr now))) := by
  have hsplit : l1 ++ p :: l2 = (l1 ++ [p]) ++ l2 := by simp
  rw [hsplit, mergeBatchPhase_append, mergeBatchPhase_preserve_at l2 now _ hno,
    mergeBatchPhase_append]
  have hone : (mergeBatchPhase (mergeBatchPhase m l1 now).1 [p] now).1
      = mapSet (mergeBatchPhase m l1 now).1 ((p.getF "urn").getD .vnull)
          (.vobj (setF
            (objSpread
              (optFields (mapGet (mergeBatchPhase m l1 now).1 ((p.getF "urn").getD .vnull)))
              (spreadSrc p))
            "lastUpdated" (.vstr now))) := by
    rw [mergeBatchPhase, List.foldl_cons, List.foldl_nil]
    unfold mergeStep
    simp [ht]
  rw [hone, mapGet_mapSet]
  simp [hprim]

/-- Re-merging records whose entries already absorb them is a no-op. -/
theorem mergeBatchPhase_noop (m : JMap) (batch : List JVal) (now : String)
    (h : ∀ p ∈ batch, truthy (p.getF "urn") = true →
      ∃ v, mapGet m ((p.getF "urn").getD .vnull) = some v ∧
        JVal.vobj (setF (objSpread (spreadSrc v) (spreadSrc p)) "lastUpdated" (.vstr now)) = v) :
    mergeBatchPhase m batch now = (m, 0) := by
  unfold mergeBatchPhase
  refine foldl_inv_mem (fun s => s = ((m : JMap), (0 : Nat))) _ batch ?_ (m, 0) rfl
  rintro s p hp rfl
  unfold mergeStep
  by_cases ht : truthy (p.getF "urn") = true
  · simp only [ht, if_true]
    obtain ⟨v, hv, habs⟩ := h p hp ht
    rw [hv]
    simp only [Option.isSome_some, if_true]
    have : JVal.vobj (setF (objSpread (optFields (some v)) (spreadSrc p)) "lastUpdated"
        (.vstr now)) = v := habs
    rw [this, mapSet_same hv]
  · simp [ht]

/-- The replace-whole pass over an appended batch processes in sequence. -/
theorem trendingReplacePhase_append (m : JMap) (l1 l2 : List JVal) (now : String) :
    trendingReplacePhase m (l1 ++ l2) now
      = trendingReplacePhase (trendingReplacePhase m l1 now) l2 now := by
  simp [trendingReplacePhase, List.foldl_append]

theorem trendingReplacePhase_preserve_at (l2 : List JVal) (now : String) (k : JVal)
    (hno : ∀ q ∈ l2, truthy (q.getF "topic") = true →
      primEq ((q.getF "topic").getD .vnull) k = false) :
    ∀ m : JMap, mapGet (trendingReplacePhase m l2 now) k = mapGet m k := by
  induction l2 with
  | nil => intro m; rfl
  | cons q rest ih =>
    intro m
    have hstep : trendingReplacePhase m (q :: rest) now
        = trendingReplacePhase
            (if truthy (q.getF "topic") then
              mapSet m ((q.getF "topic").getD .vnull)
                (.vobj (setF (spreadSrc q) "lastSeen" (.vstr now)))
            else m) rest now := rfl
    rw [hstep, ih (fun q2 hq2 => hno q2 (List.mem_cons_of_mem _ hq2))]
    by_cases ht : truthy (q.getF "topic") = true
    · simp only [ht, if_true]
      rw [mapGet_mapSet]
      simp [hno q (List.mem_cons_self _ _) ht]
    · simp [ht]

theorem trendingReplacePhase_get_last (m : JMap) (l1 : List JVal) (t : JVal) (l2 : List JVal)
    (now : String) (ht : truthy (t.getF "topic") = true)
    (hprim : primEq ((t.getF "topic").getD .vnull) ((t.getF "topic").getD .vnull) = true)
    (hno : ∀ q ∈ l2, truthy (q.getF "topic") = true →
      primEq ((q.getF "topic").getD .vnull) ((t.getF "topic").getD .vnull) = false) :
    mapGet (trendingReplacePhase m (l1 ++ t :: l2) now) ((t.getF "topic").getD .vnull)
      = some (.vobj (setF (spreadSrc t) "lastSeen" (.vstr now))) := by
  have hsplit : l1 ++ t :: l2 = (l1 ++ [t]) ++ l2 := by simp
  rw [hsplit, trendingReplacePhase_append, trendingReplacePhase_preserve_at l2 now _ hno,
    trendingReplacePhase_append]
  have hone : trendingReplacePhase (trendingReplacePhase m l1 now) [t] now
      = mapSet (trendingReplacePhase m l1 now) ((t.getF "topic").getD .vnull)
          (.vobj (setF (spreadSrc t) "lastSeen" (.vstr now))) := by
    rw [trendingReplacePhase, List.foldl_cons, List.foldl_nil]
    simp [ht]
  rw [hone, mapGet_mapSet]
  simp [hprim]

theorem trendingReplacePhase_noop (m : JMap) (batch : List JVal) (now : String)
    (h : ∀ t ∈ batch, truthy (t.getF "topic") = true →
      mapGet m ((t.getF "topic").getD .vnull)
        = some (.vobj (setF (spreadSrc t) "lastSeen" (.vstr now)))) :
    trendingReplacePhase m batch now = m := by
  unfold trendingReplacePhase
  refine foldl_inv_mem (fun s => s = m) _ batch ?_ m rfl
  rintro s t hmem rfl
  by_cases ht : truthy (t.getF "topic") = true
  · simp only [ht, if_true]
    exact mapSet_same (h t hmem ht)
  · simp [ht]

theorem trendingReplacePhase_inv {m : JMap} (batch : List JVal) (now : String)
    (h : keyedBy "topic" m ∧ pairwiseKeys m) :
    keyedBy "topic" (trendingReplacePhase m batch now)
      ∧ pairwiseKeys (trendingReplacePhase m batch now) := by
  unfold trendingReplacePhase
  refine foldl_inv (fun s : JMap => keyedBy "topic" s ∧ pairwiseKeys s) _ ?_ batch m h
  rintro s t ⟨hk, hp⟩
  by_cases ht : truthy (t.getF "topic") = true
  · simp only [ht, if_true]
    have hget : (JVal.vobj (setF (spreadSrc t) "lastSeen" (.vstr now))).getF "topic"
        = t.getF "topic" := by
      have hred : (JVal.vobj (setF (spreadSrc t) "lastSeen" (.vstr now))).getF "topic"
          = objGet (setF (spreadSrc t) "lastSeen" (.vstr now)) "topic" := rfl
      rw [hred, objGet_setF_other _ _ _ _ (by simp), getF_spreadSrc]
    exact ⟨keyedBy_mapSet hk (by rw [hget]) (by rw [hget]; exact ht),
      pairwiseKeys_mapSet _ _ hp⟩
  · simp only [ht, Bool.false_eq_true, if_false]
    exact ⟨hk, hp⟩

theorem followersReplacePhase_preserve_at (l2 : List JVal) (k : JVal)
    (hno : ∀ q ∈ l2, truthy (q.getF "entityUrn") = true →
      primEq ((q.getF "entityUrn").getD .vnull) k = false) :
    ∀ m : JMap, mapGet (followersReplacePhase m l2) k = mapGet m k := by
  induction l2 with
  | nil => intro m; rfl
  | cons q rest ih =>
    intro m
    have hstep : followersReplacePhase m (q :: rest)
        = followersReplacePhase
            (if truthy (q.getF "entityUrn") then
              mapSet m ((q.getF "entityUrn").getD .vnull) q
            else m) rest := rfl
    rw [hstep, ih (fun q2 hq2 => hno q2 (List.mem_cons_of_mem _ hq2))]
    by_cases ht : truthy (q.getF "entityUrn") = true
    · simp only [ht, if_true]
      rw [mapGet_mapSet]
      simp [hno q (List.mem_cons_self _ _) ht]
    · simp [ht]

theorem followersReplacePhase_append (m : JMap) (l1 l2 : List JVal) :
    followersReplacePhase m (l1 ++ l2)
      = followersReplacePhase (followersReplacePhase m l1) l2 := by
  simp [followersReplacePhase, List.foldl_append]

theorem followersReplacePhase_get_last (m : JMap) (l1 : List JVal) (f : JVal) (l2 : List JVal)
    (ht : truthy (f.getF "entityUrn") = true)
    (hprim : primEq ((f.getF "entityUrn").getD .vnull) ((f.getF "entityUrn").getD .vnull) = true)
    (hno : ∀ q ∈ l2, truthy (q.getF "entityUrn") = true →
      primEq ((q.getF "entityUrn").getD .vnull) ((f.getF "entityUrn").getD .vnull) = false) :
    mapGet (followersReplacePhase m (l1 ++ f :: l2)) ((f.getF "entityUrn").getD .vnull)
      = some f := by
  have hsplit : l1 ++ f :: l2 = (l1 ++ [f]) ++ l2 := by simp
  rw [hsplit, followersReplacePhase_append, followersReplacePhase_preserve_at l2 _ hno,
    followersReplacePhase_append]
  have hone : followersReplacePhase (followersReplacePhase m l1) [f]
      = mapSet (followersReplacePhase m l1) ((f.getF "entityUrn").getD .vnull) f := by
    rw [followersReplacePhase, List.foldl_cons, List.foldl_nil]
    simp [ht]
  rw [hone, mapGet_mapSet]
  simp [hprim]

theorem followersReplacePhase_noop (m : JMap) (batch : List JVal)
    (h : ∀ f ∈ batch, truthy (f.getF "entityUrn") = true →
      mapGet m ((f.getF "entityUrn").getD .vnull) = some f) :
    followersReplacePhase m batch = m := by
  unfold followersReplacePhase
  refine foldl_inv_mem (fun s => s = m) _ batch ?_ m rfl
  rintro s f hmem rfl
  by_cases ht : truthy (f.getF "entityUrn") = true
  · simp only [ht, if_true]
    exact mapSet_same (h f hmem ht)
  · simp [ht]

theorem followersReplacePhase_inv {m : JMap} (batch : List JVal)
    (h : keyedBy "entityUrn" m ∧ pairwiseKeys m) :
    keyedBy "entityUrn" (followersReplacePhase m batch)
      ∧ pairwiseKeys (followersReplacePhase m batch) := by
  unfold followersReplacePhase
  refine foldl_inv (fun s : JMap => keyedBy "entityUrn" s ∧ pairwiseKeys s) _ ?_ batch m h
  rintro s f ⟨hk, hp⟩
  by_cases ht : truthy (f.getF "entityUrn") = true
  · simp only [ht, if_true]
    exact ⟨keyedBy_mapSet hk rfl ht, pairwiseKeys_mapSet _ _ hp⟩
  · simp only [ht, Bool.false_eq_true, if_false]
    exact ⟨hk, hp⟩

/-! ### Spread absorption -/

theorem or_or_self (x y : Option JVal) : Option.or x (Option.or x y) = Option.or x y := by
  cases x <;> rfl

theorem spread_keys_covered {a b : JObj} (h : ∀ kk ∈ b.map Prod.fst, objHas a kk = true) :
    (objSpread a b).map Prod.fst = a.map Prod.fst := by
  rw [objSpread_keys]
  have hnil : b.filter (fun kv => !objHas a kv.1) = [] := by
    rw [List.filter_eq_nil_iff]
    intro kv hkv
    simp [h kv.1 (List.mem_map.mpr ⟨kv, hkv, rfl⟩)]
  simp [hnil]

theorem setF_keys_of_has {a : JObj} {k : String} (v : JVal) (h : objHas a k = true) :
    (setF a k v).map Prod.fst = a.map Prod.fst := by
  rw [setF]
  exact spread_keys_covered (by intro kk hkk; simp at hkk; subst hkk; exact h)

theorem nodupKeys_spread {a b : JObj} (ha : nodupKeys a) (hb : nodupKeys b) :
    nodupKeys (objSpread a b) := by
  rw [nodupKeys, objSpread_keys]
  refine List.Nodup.append ?_ ?_ ?_
  · simpa [nodupKeys] using ha
  · exact ((List.filter_sublist b).map Prod.fst).nodup hb
  · intro x hx hx2
    obtain ⟨kv, hkv, rfl⟩ := List.mem_map.mp hx2
    have hmem := List.mem_filter.mp hkv
    have : objGet a kv.1 = none := by
      rcases hhas : objGet a kv.1 with _ | w
      · rfl
      · exfalso
        have := hmem.2
        simp [objHas, hhas] at this
    rw [objGet_eq_none_iff] at this
    exact this hx

theorem nodupKeys_setF {a : JObj} (k : String) (v : JVal) (ha : nodupKeys a) :
    nodupKeys (setF a k v) := by
  rw [setF]
  exact nodupKeys_spread ha (by simp [nodupKeys])

/-- Shallow-merging the same fields over an already-merged record is the
identity: `{...({...Y, ...N, lastUpdated: t}), ...N, lastUpdated: t}`
equals `{...Y, ...N, lastUpdated: t}`. -/
theorem spread_absorb (Y N : JObj) (now : String) (hY : nodupKeys Y) (hN : nodupKeys N) :
    setF (objSpread (setF (objSpread Y N) "lastUpdated" (.vstr now)) N) "lastUpdated" (.vstr now)
      = setF (objSpread Y N) "lastUpdated" (.vstr now) := by
  have hAnodup : nodupKeys (setF (objSpread Y N) "lastUpdated" (.vstr now)) :=
    nodupKeys_setF _ _ (nodupKeys_spread hY hN)
  have hAlu : objGet (setF (objSpread Y N) "lastUpdated" (.vstr now)) "lastUpdated"
      = some (.vstr now) := objGet_setF_same _ _ _
  have hAother : ∀ k2, k2 ≠ "lastUpdated" →
      objGet (setF (objSpread Y N) "lastUpdated" (.vstr now)) k2
        = Option.or (objGet N k2) (objGet Y k2) := by
    intro k2 hk2
    rw [objGet_setF_other _ _ _ _ hk2, objGet_spread]
  have hNcov : ∀ kk ∈ N.map Prod.fst,
      objHas (setF (objSpread Y N) "lastUpdated" (.vstr now)) kk = true := by
    intro kk hkk
    by_cases hlu : kk = "lastUpdated"
    · subst hlu
      simp [objHas, hAlu]
    · have hNk : objGet N kk ≠ none := by
        intro hnone
        exact ((objGet_eq_none_iff N kk).mp hnone) hkk
      rw [objHas, hAother kk hlu]
      rcases hNget : objGet N kk with _ | w
      · exact absurd hNget hNk
      · simp [Option.or]
  have hkeysSp : (objSpread (setF (objSpread Y N) "lastUpdated" (.vstr now)) N).map Prod.fst
      = (setF (objSpread Y N) "lastUpdated" (.vstr now)).map Prod.fst :=
    spread_keys_covered hNcov
  have hhasLu : objHas (objSpread (setF (objSpread Y N) "lastUpdated" (.vstr now)) N)
      "lastUpdated" = true := by
    rw [objHas, objGet_spread, hAlu]
    cases objGet N "lastUpdated" <;> simp [Option.or]
  have hkeys : (setF (objSpread (setF (objSpread Y N) "lastUpdated" (.vstr now)) N)
      "lastUpdated" (.vstr now)).map Prod.fst
      = (setF (objSpread Y N) "lastUpdated" (.vstr now)).map Prod.fst := by
    rw [setF_keys_of_has _ hhasLu, hkeysSp]
  refine objExt ?_ hkeys ?_
  · show ((setF (objSpread (setF (objSpread Y N) "lastUpdated" (.vstr now)) N)
      "lastUpdated" (.vstr now)).map Prod.fst).Nodup
    rw [hkeys]
    exact hAnodup
  · intro k2
    by_cases hlu : k2 = "lastUpdated"
    · subst hlu
      rw [objGet_setF_same, hAlu]
    · rw [objGet_setF_other _ _ _ _ hlu, objGet_spread, hAother k2 hlu]
      exact or_or_self _ _

/-! ### Concrete records used by the claim scenarios -/

/-- C1: the spec requires that an incoming feed record with the same
identity key as an existing *stored* record be shallow-merged over it
(union of fields, incoming wins).  The code's merge pass implements
exactly that, but `saveFeedPostsToStorage` loads the previously stored
feed *object* as the posts array, so every save after the first throws
(`forEach` on a non-array), is caught, and leaves storage unchanged:
re-submitting urn "a" with new fields fails instead of merging.  The
my-posts save (`saveMyPostsToStorage`), which loads
`existingData.posts`, merges as specified. -/
theorem c1_feed_remerge_fails :
    saveFeedPostsToStorage feedState1 [recA2] "T2"
      = (respFail forEachTypeError, feedState1) := by
  rfl

/-- C2 counterexample: after the comment batches `[{urn c1, likes 3}]`
then `[{urn c1, likes 9, text "hi"}]`, the single stored record is still
`{urn c1, likes 3}` — not the claimed `{urn c1, likes 9, text "hi"}` —
because `saveCommentsToStorage` skips an incoming comment whose urn is
already present instead of merging it. -/
theorem c2_counterexample :
    ((saveCommentsToStorage commentsState1 [commentC1b] "T2").2.getD .vnull).getF "comments"
        = some (.varr [commentC1a])
      ∧ commentC1a ≠ commentC1b := by
  refine ⟨rfl, ?_⟩
  simp [commentC1a, commentC1b]

/-- C2 (amended): two sequential comment batches `[{urn c1, likes 3}]`
then `[{urn c1, likes 9, text "hi"}]` leave exactly one stored record
for urn c1, namely the *first* record `{urn c1, likes 3}` (comments are
deduplicated first-wins, not merged); the first call reports
`newCount = 1` and the second `newCount = 0`. -/
theorem c2_amended :
    ((saveCommentsToStorage commentsState1 [commentC1b] "T2").2.getD .vnull).getF "comments"
        = some (.varr [.vobj [("urn", .vstr "c1"), ("likes", .vnum 3)]])
      ∧ (saveCommentsToStorage none [commentC1a] "T1").1
        = [("success", .vbool true), ("newCount", .vnum 1), ("totalCount", .vnum 1)]
      ∧ (saveCommentsToStorage commentsState1 [commentC1b] "T2").1
        = [("success", .vbool true), ("newCount", .vnum 0), ("totalCount", .vnum 1)] :=
  ⟨rfl, rfl, rfl⟩

/-! ### Cascade claims -/

/-- C7 counterexample: a profile-category voyager request is tracked at
t=1000; a structurally matching decode arrives at t=2000 — within the
5000 ms window with a tracked URL and an object carrying `data` — yet
no event is dispatched, because the `JSON.parse` tier additionally
requires the tracked URL to be feed-related (category `feed` or the URL
containing `"Feed"`).  This refutes the claimed if-and-only-if. -/
theorem c7_counterexample :
    shouldCapture profileUrl = true
      ∧ stProfileTracked.lastVoyagerUrl = some profileUrl
      ∧ ((2000 : Int) - stProfileTracked.lastVoyagerTimestamp < 5000)
      ∧ looksLikeApiResponse decodedVal = true
      ∧ (jsonParseIntercept stProfileTracked decodedVal 2000).1 = none := by
  refine ⟨rfl, rfl, by decide, rfl, rfl⟩

/-- C7 (amended): the decode-fallback tier dispatches iff a tracked
matching request is live within the 5000 ms window, the decoded value is
a truthy object with a truthy `included`/`data`/`elements` field, AND
the tracked URL is feed-related (category `feed` or containing `"Feed"`);
on every structural match (feed-related or not) the recency pointer is
cleared; a decode 6000 ms after the tracked request is not dispatched. -/
theorem c7_amended :
    (∀ (st : InterceptorState) (v : JVal) (now : Int),
        (jsonParseIntercept st v now).1.isSome = true ↔
          ∃ url, st.lastVoyagerUrl = some url ∧ now - st.lastVoyagerTimestamp < 5000 ∧
            looksLikeApiResponse v = true ∧
            (categorize url = "feed" ∨ strIncludes url "Feed" = true))
    ∧ (∀ (st : InterceptorState) (v : JVal) (now : Int) (url : String),
        st.lastVoyagerUrl = some url → now - st.lastVoyagerTimestamp < 5000 →
        looksLikeApiResponse v = true →
        (jsonParseIntercept st v now).2.lastVoyagerUrl = none)
    ∧ (∀ (st : InterceptorState) (v : JVal) (now : Int),
        ¬ now - st.lastVoyagerTimestamp < 5000 → (jsonParseIntercept st v now).1 = none)
    ∧ (∀ (st0 : InterceptorState) (rid url : String) (v : JVal) (t : Int),
        shouldCapture url = true →
        (jsonParseIntercept (trackFetchRequest st0 rid url t) v (t + 6000)).1 = none) := by
  refine ⟨?_, ?_, ?_, ?_⟩
  · intro st v now
    cases hurl : st.lastVoyagerUrl with
    | none => simp [jsonParseIntercept, hurl]
    | some url =>
      simp only [jsonParseIntercept, hurl]
      by_cases hrec : now - st.lastVoyagerTimestamp < 5000
      · simp only [hrec, if_true]
        by_cases hshape : looksLikeApiResponse v = true
        · simp only [hshape, if_true]
          by_cases hfeed : (categorize url == "feed" || strIncludes url "Feed") = true
          · simp only [hfeed, if_true]
            simp only [Bool.or_eq_true, beq_iff_eq] at hfeed
            simp [hrec, hshape, hfeed]
          · simp only [hfeed, Bool.false_eq_true, if_false]
            simp only [Bool.or_eq_true, beq_iff_eq] at hfeed
            push_neg at hfeed
            simp only [Option.isSome_none, Bool.false_eq_true, false_iff]
            rintro ⟨url2, hu2, _, _, hf⟩
            obtain rfl : url = url2 := Option.some.inj hu2
            rcases hf with hf | hf
            · exact hfeed.1 hf
            · exact hfeed.2 hf
        · simp only [hshape, Bool.false_eq_true, if_false]
          simp only [Option.isSome_none, Bool.false_eq_true, false_iff]
          rintro ⟨url2, hu2, _, hsh, _⟩
          exact hsh
      · simp only [hrec, if_false]
        simp only [Option.isSome_none, Bool.false_eq_true, false_iff]
        rintro ⟨url2, hu2, hr, _, _⟩
        exact hr
  · intro st v now url hurl hrec hshape
    simp [jsonParseIntercept, hurl, hrec, hshape]
  · intro st v now hrec
    cases hurl : st.lastVoyagerUrl with
    | none => simp [jsonParseIntercept, hurl]
    | some url => simp [jsonParseIntercept, hurl, hrec]
  · intro st0 rid url v t hcap
    have hts : (trackFetchRequest st0 rid url t).lastVoyagerTimestamp = t := by
      simp [trackFetchRequest, hcap]
    cases hurl : (trackFetchRequest st0 rid url t).lastVoyagerUrl with
    | none => simp [jsonParseIntercept, hurl]
    | some u2 =>
      simp only [jsonParseIntercept, hurl, hts]
      norm_num

/-- C7 witness: at the concrete feed-tracked state, the recency pointer
is cleared by a structural match. -/
theorem c7_witness :
    (jsonParseIntercept stFeedTracked decodedVal 2000).2.lastVoyagerUrl = none :=
  c7_amended.2.1 stFeedTracked decodedVal 2000 feedUrl rfl (by decide) rfl

theorem find?_first {α : Type} (p : α → Bool) (pre : List α) (x : α) (post : List α)
    (hpre : ∀ e ∈ pre, p e = false) (hx : p x = true) :
    (pre ++ x :: post).find? p = some x := by
  induction pre with
  | nil => simp [List.find?_cons_of_pos _ hx]
  | cons e rest ih =>
    have he : ¬ p e = true := by
      simp [hpre e (List.mem_cons_self _ _)]
    simp only [List.cons_append, List.find?_cons_of_neg _ he]
    exact ih (fun e2 he2 => hpre e2 (List.mem_cons_of_mem _ he2))

/-- C8: classification is a deterministic function of the URL and the
two fixed ordered rule tables: identical input yields identical
category; with a query identifier the ordered identifier table decides
by first match (case-insensitively); without one — or when no table
entry matches — the case-insensitive URL-substring fallback applies,
whose default is "other". -/
theorem c8_categorize_spec :
    (∀ u1 u2 : String, u1 = u2 → categorize u1 = categorize u2)
    ∧ (∀ (u q : String) (pre : List (String × List String)) (c : String)
        (ps : List String) (post : List (String × List String)),
        extractQueryId u = some q →
        graphqlCategories = pre ++ (c, ps) :: post →
        (∀ e ∈ pre, entryMatches q e = false) →
        entryMatches q (c, ps) = true →
        categorize u = c)
    ∧ (∀ u : String, extractQueryId u = none → categorize u = urlFallbackCategory u)
    ∧ (∀ u q : String, extractQueryId u = some q →
        (∀ e ∈ graphqlCategories, entryMatches q e = false) →
        categorize u = urlFallbackCategory u)
    ∧ (∀ u : String,
        strIncludes (lowerStr u) "feed" = false →
        strIncludes (lowerStr u) "messaging" = false →
        strIncludes (lowerStr u) "identity" = false →
        strIncludes (lowerStr u) "profile" = false →
        strIncludes (lowerStr u) "relationship" = false →
        strIncludes (lowerStr u) "connection" = false →
        strIncludes (lowerStr u) "analytics" = false →
        strIncludes (lowerStr u) "wvmp" = false →
        urlFallbackCategory u = "other") := by
  refine ⟨fun u1 u2 h => h ▸ rfl, ?_, ?_, ?_, ?_⟩
  · intro u q pre c ps post hq htable hpre hx
    rw [categorize, hq]
    dsimp only
    rw [htable, find?_first (entryMatches q) pre (c, ps) post hpre hx]
  · intro u hq
    rw [categorize, hq]
  · intro u q hq hnone
    rw [categorize, hq]
    dsimp only
    have hfind : graphqlCategories.find? (entryMatches q) = none := by
      rw [List.find?_eq_none]
      intro e he
      simp [hnone e he]
    rw [hfind]
  · intro u h1 h2 h3 h4 h5 h6 h7 h8
    rw [urlFallbackCategory]
    simp [h1, h2, h3, h4, h5, h6, h7, h8]

/-- C8 witness: the comments table entry decides the concrete URL
`.../graphql?queryId=voyagerSocialDashComments1` even though its URL
fallback category would differ. -/
theorem c8_witness :
    categorize "https://x/voyager/api/graphql?queryId=voyagerSocialDashComments1"
      = "comments" :=
  c8_categorize_spec.2.1 _ "voyagerSocialDashComments"
    [("feed", ["voyagerFeedDashMainFeed", "voyagerFeedDashFeedUpdate", "voyagerFeedDashRecommendedFeed"]),
     ("myPosts", ["voyagerFeedDashProfileUpdates", "voyagerFeedDashMemberActivityFeed"])]
    "comments" ["voyagerSocialDashComments", "voyagerSocialDashReplies"]
    [("reactions", ["voyagerSocialDashReactions", "voyagerSocialDashReactors"]),
     ("messaging", ["messengerMailboxCounts", "messengerConversations", "messengerMessages"]),
     ("profile", ["voyagerIdentityDashProfiles", "voyagerIdentityDashProfileCards"]),
     ("network", ["voyagerRelationshipsDashConnections", "voyagerRelationshipsDashFollowers"]),
     ("analytics", ["voyagerCreatorDashAnalytics", "voyagerContentDashAnalytics", "voyagerIdentityDashWvmp"])]
    rfl rfl (by decide) (by decide)

theorem followersExistingData_obj (fs : JObj) :
    followersExistingData (some (.vobj fs)) = fs := rfl

/-- C10: a followers payload whose `followerCount` is 0 or absent (both
falsy) leaves the stored `followerCount` and `history` untouched — no
history entry is appended; a zero count behaves exactly like a missing
count; and the followers-list portion is still merged independently. -/
theorem c10_followers_zero_count :
    (∀ (fs : JObj) (nd : JVal) (now : String),
        truthy (some nd) = true →
        truthy (nd.getF "followerCount") = false →
        ∀ ed, (saveFollowersToStorage (some (.vobj fs)) (some nd) now).2 = some (.vobj ed) →
          objGet ed "history" = objGet fs "history"
            ∧ objGet ed "followerCount" = objGet fs "followerCount")
    ∧ (∀ (stored : Option JVal) (nd1 nd2 : JVal) (now : String),
        truthy (some nd1) = true → truthy (some nd2) = true →
        truthy (nd1.getF "followerCount") = false →
        truthy (nd2.getF "followerCount") = false →
        nd1.getF "followers" = nd2.getF "followers" →
        saveFollowersToStorage stored (some nd1) now
          = saveFollowersToStorage stored (some nd2) now)
    ∧ (∀ (fs : JObj) (nd : JVal) (now : String) (items exFolls : List JVal),
        truthy (some nd) = true →
        truthy (nd.getF "followerCount") = false →
        nd.getF "followers" = some (.varr items) → items.length > 0 →
        loadedArray (objGet fs "followers") = some exFolls →
        (saveFollowersToStorage (some (.vobj fs)) (some nd) now).2
          = some (.vobj (setF (setF fs "followers"
              (.varr (followersMergedList exFolls items))) "lastUpdated" (.vstr now)))) := by
  refine ⟨?_, ?_, ?_⟩
  · intro fs nd now hnd hfc ed hed
    rw [saveFollowersToStorage, if_neg (by simp [hnd])] at hed
    dsimp only [Option.getD] at hed
    rw [if_neg (by simp [hfc])] at hed
    simp only [followersExistingData_obj] at hed
    have hhist : ∀ x,
        objGet (setF (setF fs "followers" x) "lastUpdated" (.vstr now)) "history"
          = objGet fs "history" := by
      intro x
      rw [objGet_setF_other _ _ _ _ (by simp), objGet_setF_other _ _ _ _ (by simp)]
    have hcnt : ∀ x,
        objGet (setF (setF fs "followers" x) "lastUpdated" (.vstr now)) "followerCount"
          = objGet fs "followerCount" := by
      intro x
      rw [objGet_setF_other _ _ _ _ (by simp), objGet_setF_other _ _ _ _ (by simp)]
    have hlu : objGet (setF fs "lastUpdated" (.vstr now)) "history" = objGet fs "history" :=
      objGet_setF_other _ _ _ _ (by simp)
    have hlu2 : objGet (setF fs "lastUpdated" (.vstr now)) "followerCount"
        = objGet fs "followerCount" :=
      objGet_setF_other _ _ _ _ (by simp)
    rcases hfoll : nd.getF "followers" with _ | v
    · rw [hfoll] at hed
      dsimp only at hed
      obtain rfl : setF fs "lastUpdated" (.vstr now) = ed := by
        have := Option.some.inj hed
        exact JVal.vobj.inj this
      exact ⟨hlu, hlu2⟩
    · rw [hfoll] at hed
      cases v with
      | varr items =>
        dsimp only at hed
        by_cases hlen : items.length > 0
        · rw [if_pos hlen] at hed
          rcases hload : loadedArray (objGet fs "followers") with _ | ex
          · rw [hload] at hed
            dsimp only at hed
            obtain rfl : fs = ed := JVal.vobj.inj (Option.some.inj hed)
            exact ⟨rfl, rfl⟩
          · rw [hload] at hed
            dsimp only at hed
            obtain rfl : setF (setF fs "followers" (.varr (followersMergedList ex items)))
                "lastUpdated" (.vstr now) = ed := JVal.vobj.inj (Option.some.inj hed)
            exact ⟨hhist _, hcnt _⟩
        · rw [if_neg hlen] at hed
          obtain rfl : setF fs "lastUpdated" (.vstr now) = ed :=
            JVal.vobj.inj (Option.some.inj hed)
          exact ⟨hlu, hlu2⟩
      | vstr s =>
        dsimp only at hed
        by_cases hs : s == "" 
        · rw [if_pos hs] at hed
          obtain rfl : setF fs "lastUpdated" (.vstr now) = ed :=
            JVal.vobj.inj (Option.some.inj hed)
          exact ⟨hlu, hlu2⟩
        · rw [if_neg hs] at hed
          obtain rfl : fs = ed := JVal.vobj.inj (Option.some.inj hed)
          exact ⟨rfl, rfl⟩
      | vnull =>
        dsimp only at hed
        obtain rfl : setF fs "lastUpdated" (.vstr now) = ed :=
          JVal.vobj.inj (Option.some.inj hed)
        exact ⟨hlu, hlu2⟩
      | vbool b =>
        dsimp only at hed
        obtain rfl : setF fs "lastUpdated" (.vstr now) = ed :=
          JVal.vobj.inj (Option.some.inj hed)
        exact ⟨hlu, hlu2⟩
      | vnum n =>
        dsimp only at hed
        obtain rfl : setF fs "lastUpdated" (.vstr now) = ed :=
          JVal.vobj.inj (Option.some.inj hed)
        exact ⟨hlu, hlu2⟩
      | vobj fs2 =>
        dsimp only at hed
        obtain rfl : setF fs "lastUpdated" (.vstr now) = ed :=
          JVal.vobj.inj (Option.some.inj hed)
        exact ⟨hlu, hlu2⟩
  · intro stored nd1 nd2 now h1 h2 hf1 hf2 hF
    simp only [saveFollowersToStorage]
    rw [if_neg (by simp [h1])]
    dsimp only [Option.getD]
    rw [if_neg (by simp [hf1])]
    rw [if_neg (by simp [h2])]
    rw [if_neg (by simp [hf2])]
    rw [hF]
  · intro fs nd now items exFolls hnd hfc hfoll hlen hload
    rw [saveFollowersToStorage, if_neg (by simp [hnd])]
    dsimp only [Option.getD]
    rw [if_neg (by simp [hfc]), hfoll]
    simp only [followersExistingData_obj]
    rw [if_pos hlen, hload]

/-- C10 witness: a payload with `followerCount: 0` and one follower,
over a stored state with count 7 and one history point, leaves history
and count untouched. -/
theorem c10_witness :
    objGet edZeroCount "history" = objGet fsPrior "history"
      ∧ objGet edZeroCount "followerCount" = objGet fsPrior "followerCount" :=
  c10_followers_zero_count.1 fsPrior ndZeroCount "T1" rfl rfl edZeroCount rfl

/-! ### C3: capacity invariant -/

theorem length_take_le' {α : Type} (n : Nat) (l : List α) : (l.take n).length ≤ n := by
  rw [List.length_take]
  exact min_le_left _ _

theorem sliceLast_length_le (n : Nat) (l : List JVal) : (sliceLast n l).length ≤ n := by
  rw [sliceLast, List.length_drop]
  omega

theorem saveFeedPosts_bounded (stored : Option JVal) (batch : List JVal) (now : String)
    (h : collBounded stored "posts" 500 = true) :
    collBounded (saveFeedPostsToStorage stored batch now).2 "posts" 500 = true := by
  rw [saveFeedPostsToStorage]
  by_cases hb : batch.isEmpty = true
  · simp only [hb, if_true]
    exact h
  · rw [if_neg hb]
    cases hload : loadedArray stored with
    | none => exact h
    | some loaded =>
      simp only [collBounded, feedDataObj, objGet, if_pos rfl]
      simp [feedAllPosts, length_take_le']

theorem saveComments_bounded (stored : Option JVal) (batch : List JVal) (now : String)
    (h : collBounded stored "comments" 1000 = true) :
    collBounded (saveCommentsToStorage stored batch now).2 "comments" 1000 = true := by
  rw [saveCommentsToStorage]
  by_cases hb : batch.isEmpty = true
  · simp only [hb, if_true]
    exact h
  · rw [if_neg hb]
    cases hload : loadedArray (storedListField stored "comments") with
    | none => exact h
    | some loaded =>
      simp only [collBounded, commentsDataObj, objGet, if_pos rfl]
      simp [commentsAll, length_take_le']

theorem saveMyPosts_bounded (stored : Option JVal) (batch : List JVal) (now : String)
    (h : collBounded stored "posts" 200 = true) :
    collBounded (saveMyPostsToStorage stored batch now).2 "posts" 200 = true := by
  rw [saveMyPostsToStorage]
  by_cases hb : batch.isEmpty = true
  · simp only [hb, if_true]
    exact h
  · rw [if_neg hb]
    cases hload : loadedArray (storedListField stored "posts") with
    | none => exact h
    | some loaded =>
      simp only [collBounded, myPostsDataObj, objGet, if_pos rfl]
      simp [myPostsAll, length_take_le']

theorem saveTrending_bounded (stored : Option JVal) (batch : List JVal) (now : String)
    (h : collBounded stored "topics" 200 = true) :
    collBounded (saveTrendingToStorage stored batch now).2 "topics" 200 = true := by
  rw [saveTrendingToStorage]
  by_cases hb : batch.isEmpty = true
  · simp only [hb, if_true]
    exact h
  · rw [if_neg hb]
    cases hload : loadedArray (storedListField stored "topics") with
    | none => exact h
    | some loaded =>
      simp only [collBounded, trendingDataObj, objGet, if_pos rfl]
      simp [length_take_le']

theorem savePostAnalytics_bounded (stored : Option JVal) (nd : Option JVal) (now : String)
    (h : collBounded stored "posts" 100 = true) :
    collBounded (savePostAnalyticsToStorage stored nd now).2 "posts" 100 = true := by
  rw [savePostAnalyticsToStorage]
  by_cases hguard : (!truthy (nd.bind (fun d => d.getF "activityUrn"))) = true
  · simp only [hguard, if_true]
    exact h
  · rw [if_neg hguard]
    cases hload : loadedArray (storedListField stored "posts") with
    | none => exact h
    | some loaded =>
      simp only [collBounded, postAnalyticsDataObj, objGet, if_pos rfl]
      simp [analyticsAll, length_take_le']

theorem appendToStorage_bounded (stored : Option JVal) (nd : JVal) (now : String)
    (h : arrBounded stored 1000 = true) :
    arrBounded (appendToStorage stored nd now).2 1000 = true := by
  rw [appendToStorage]
  cases hload : loadedArray stored with
  | none => exact h
  | some arr =>
    simp only [arrBounded]
    simp [sliceLast_length_le]

theorem fieldArrBounded_setF_other (o : JObj) (k k2 : String) (v : JVal) (cap : Nat)
    (h : k2 ≠ k) : fieldArrBounded (setF o k v) k2 cap = fieldArrBounded o k2 cap := by
  unfold fieldArrBounded
  rw [objGet_setF_other _ _ _ _ h]

theorem fieldArrBounded_setF_arr (o : JObj) (k : String) (l : List JVal) (cap : Nat) :
    fieldArrBounded (setF o k (.varr l)) k cap = decide (l.length ≤ cap) := by
  unfold fieldArrBounded
  rw [objGet_setF_same]

theorem followersExistingData_fieldBounded (stored : Option JVal) (fld : String) (cap : Nat)
    (h : collBounded stored fld cap = true)
    (hdef : fieldArrBounded defaultFollowersData fld cap = true) :
    fieldArrBounded (followersExistingData stored) fld cap = true := by
  cases stored with
  | none => exact hdef
  | some v =>
    rw [show followersExistingData (some v)
      = if truthy (some v) = true then spreadSrc v else defaultFollowersData from rfl]
    by_cases ht : truthy (some v) = true
    · rw [if_pos ht]
      cases v with
      | vobj fs => exact h
      | vnull => exact rfl
      | vbool b => exact rfl
      | vnum n => exact rfl
      | vstr s => exact rfl
      | varr l => exact rfl
    · rw [if_neg ht]
      exact hdef

theorem saveFollowers_bounded (stored : Option JVal) (nd : Option JVal) (now : String)
    (h1 : collBounded stored "followers" 500 = true)
    (h2 : collBounded stored "history" 100 = true) :
    collBounded (saveFollowersToStorage stored nd now).2 "followers" 500 = true
      ∧ collBounded (saveFollowersToStorage stored nd now).2 "history" 100 = true := by
  rw [saveFollowersToStorage]
  by_cases hnd : (!truthy nd) = true
  · simp only [hnd, if_true]
    exact ⟨h1, h2⟩
  · rw [if_neg hnd]
    dsimp only
    have hE1 : fieldArrBounded (followersExistingData stored) "followers" 500 = true :=
      followersExistingData_fieldBounded stored _ _ h1 rfl
    have hE2 : fieldArrBounded (followersExistingData stored) "history" 100 = true :=
      followersExistingData_fieldBounded stored _ _ h2 rfl
    have hfinal : ∀ ed2 : JObj,
        fieldArrBounded ed2 "followers" 500 = true →
        fieldArrBounded ed2 "history" 100 = true →
        collBounded (some (.vobj (setF ed2 "lastUpdated" (.vstr now)))) "followers" 500 = true
          ∧ collBounded (some (.vobj (setF ed2 "lastUpdated" (.vstr now)))) "history" 100 = true := by
      intro ed2 hf hh
      constructor
      · show fieldArrBounded (setF ed2 "lastUpdated" (.vstr now)) "followers" 500 = true
        rw [fieldArrBounded_setF_other _ _ _ _ _ (by simp)]
        exact hf
      · show fieldArrBounded (setF ed2 "lastUpdated" (.vstr now)) "history" 100 = true
        rw [fieldArrBounded_setF_other _ _ _ _ _ (by simp)]
        exact hh
    have hlist : ∀ ed1 : JObj,
        fieldArrBounded ed1 "followers" 500 = true →
        fieldArrBounded ed1 "history" 100 = true →
        collBounded ((match
            (match (nd.getD .vnull).getF "followers" with
              | some (.varr items) =>
                if items.length > 0 then
                  match loadedArray (objGet ed1 "followers") with
                  | none => none
                  | some existingFollowers =>
                    some (setF ed1 "followers"
                      (.varr (followersMergedList existingFollowers items)))
                else some ed1
              | some (.vstr s) => if s == "" then some ed1 else none
              | _ => some ed1 : Option JObj) with
          | none => (respFail forEachTypeError, stored)
          | some ed2 =>
            ([("success", .vbool true),
              ("count", .vnum (match objGet (setF ed2 "lastUpdated" (.vstr now)) "followers" with
                | some (.varr l) => (l.length : Int)
                | _ => 0)),
              ("followerCount", (objGet (setF ed2 "lastUpdated" (.vstr now)) "followerCount").getD .vnull)],
             some (.vobj (setF ed2 "lastUpdated" (.vstr now))))).2) "followers" 500 = true
          ∧ collBounded ((match
            (match (nd.getD .vnull).getF "followers" with
              | some (.varr items) =>
                if items.length > 0 then
                  match loadedArray (objGet ed1 "followers") with
                  | none => none
                  | some existingFollowers =>
                    some (setF ed1 "followers"
                      (.varr (followersMergedList existingFollowers items)))
                else some ed1
              | some (.vstr s) => if s == "" then some ed1 else none
              | _ => some ed1 : Option JObj) with
          | none => (respFail forEachTypeError, stored)
          | some ed2 =>
            ([("success", .vbool true),
              ("count", .vnum (match objGet (setF ed2 "lastUpdated" (.vstr now)) "followers" with
                | some (.varr l) => (l.length : Int)
                | _ => 0)),
              ("followerCount", (objGet (setF ed2 "lastUpdated" (.vstr now)) "followerCount").getD .vnull)],
             some (.vobj (setF ed2 "lastUpdated" (.vstr now))))).2) "history" 100 = true := by
      intro ed1 hf hh
      rcases hfoll : (nd.getD .vnull).getF "followers" with _ | v
      · exact hfinal ed1 hf hh
      · cases v with
        | varr items =>
          dsimp only
          by_cases hlen : items.length > 0
          · rw [if_pos hlen]
            rcases hload : loadedArray (objGet ed1 "followers") with _ | ex
            · exact ⟨h1, h2⟩
            · refine hfinal _ ?_ ?_
              · rw [fieldArrBounded_setF_arr]
                simp [followersMergedList, length_take_le']
              · rw [fieldArrBounded_setF_other _ _ _ _ _ (by simp)]
                exact hh
          · rw [if_neg hlen]
            exact hfinal ed1 hf hh
        | vstr s =>
          dsimp only
          by_cases hs : (s == "") = true
          · rw [if_pos hs]
            exact hfinal ed1 hf hh
          · rw [if_neg hs]
            exact ⟨h1, h2⟩
        | vnull => exact hfinal ed1 hf hh
        | vbool b => exact hfinal ed1 hf hh
        | vnum n => exact hfinal ed1 hf hh
        | vobj o => exact hfinal ed1 hf hh
    by_cases hfc : truthy ((nd.getD .vnull).getF "followerCount") = true
    · simp only [hfc, if_true]
      rcases hload : loadedArray (objGet (followersExistingData stored) "history") with _ | hist
      · exact ⟨h1, h2⟩
      · refine hlist _ ?_ ?_
        · rw [fieldArrBounded_setF_other _ _ _ _ _ (by simp),
            fieldArrBounded_setF_other _ _ _ _ _ (by simp)]
          exact hE1
        · rw [fieldArrBounded_setF_other _ _ _ _ _ (by simp), fieldArrBounded_setF_arr]
          simp [sliceLast_length_le]
    · simp only [hfc, Bool.false_eq_true, if_false]
      exact hlist _ hE1 hE2

theorem applyOp_capacity (s : StoreState) (op : StoreOp) (now : String)
    (h : capacityInv s) : capacityInv (applyOp s op now) := by
  obtain ⟨hf, hc, hm, hfo, hfh, ht, hp, ha⟩ := h
  cases op with
  | feed batch =>
    exact ⟨saveFeedPosts_bounded _ _ _ hf, hc, hm, hfo, hfh, ht, hp, ha⟩
  | comments batch =>
    exact ⟨hf, saveComments_bounded _ _ _ hc, hm, hfo, hfh, ht, hp, ha⟩
  | myPosts batch =>
    exact ⟨hf, hc, saveMyPosts_bounded _ _ _ hm, hfo, hfh, ht, hp, ha⟩
  | followers d =>
    exact ⟨hf, hc, hm, (saveFollowers_bounded _ _ _ hfo hfh).1,
      (saveFollowers_bounded _ _ _ hfo hfh).2, ht, hp, ha⟩
  | trending batch =>
    exact ⟨hf, hc, hm, hfo, hfh, saveTrending_bounded _ _ _ ht, hp, ha⟩
  | postAnalytics d =>
    exact ⟨hf, hc, hm, hfo, hfh, ht, savePostAnalytics_bounded _ _ _ hp, ha⟩
  | capturedApi d =>
    exact ⟨hf, hc, hm, hfo, hfh, ht, hp, appendToStorage_bounded _ _ _ ha⟩

/-- C3: for every sequence of save/append operations (with arbitrary
batches, including ones of 600 distinct records) starting from any store
satisfying the capacity invariant, every persisted collection stays
within its capacity: feed posts 500, comments 1000, my-posts 200,
post-analytics 100, trending topics 200, captured-API log 1000,
followers list 500, follower-count history 100. -/
theorem c3_capacity_invariant (s : StoreState) (ops : List (StoreOp × String))
    (h : capacityInv s) : capacityInv (applyOps s ops) := by
  induction ops generalizing s with
  | nil => exact h
  | cons o rest ih => exact ih _ (applyOp_capacity s o.1 o.2 h)

/-- C3 witness: the empty store satisfies the invariant and keeps it
across a concrete operation sequence. -/
theorem c3_witness :
    capacityInv (applyOps initialStore
      [(StoreOp.feed [recA, recB], "T1"), (StoreOp.comments [commentC1a], "T2"),
       (StoreOp.followers (some ndZeroCount), "T3"),
       (StoreOp.trending [.vobj [("topic", .vstr "ai")]], "T4"),
       (StoreOp.capturedApi (.vobj [("endpoint", .vstr "/e")]), "T5")]) :=
  c3_capacity_invariant initialStore _ ⟨rfl, rfl, rfl, rfl, rfl, rfl, rfl, rfl⟩

/-- Merging a batch of identity-fresh, pairwise-distinct records into a
map appends their merged forms in batch order. -/
theorem mergeBatchPhase_fresh (batch : List JVal) (m : JMap) (now : String)
    (hall : ∀ p ∈ batch, truthy (p.getF "urn") = true)
    (hfresh : ∀ p ∈ batch, mapGet m ((p.getF "urn").getD .vnull) = none)
    (hpair : batch.Pairwise (fun a b =>
      primEq ((a.getF "urn").getD .vnull) ((b.getF "urn").getD .vnull) = false)) :
    (mergeBatchPhase m batch now).1
      = m ++ batch.map (fun p => (((p.getF "urn").getD .vnull),
          .vobj (setF (spreadSrc p) "lastUpdated" (.vstr now)))) := by
  induction batch generalizing m with
  | nil => simp [mergeBatchPhase]
  | cons p rest ih =>
    have ht := hall p (List.mem_cons_self _ _)
    have hf := hfresh p (List.mem_cons_self _ _)
    have hpairhead := (List.pairwise_cons.mp hpair).1
    rw [mergeBatchPhase, List.foldl_cons]
    have hstep : mergeStep now (m, 0) p
        = (m ++ [(((p.getF "urn").getD .vnull),
            .vobj (setF (spreadSrc p) "lastUpdated" (.vstr now)))], 1) := by
      unfold mergeStep
      rw [if_pos ht]
      dsimp only
      rw [hf]
      simp only [Option.isSome_none, Bool.false_eq_true, if_false]
      rw [mapSet_of_fresh _ hf, show optFields (none : Option JVal) = ([] : JObj) from rfl,
        objSpread_nil_left]
    rw [hstep]
    have hpairfold : ((m ++ [(((p.getF "urn").getD .vnull),
        .vobj (setF (spreadSrc p) "lastUpdated" (.vstr now)))] : JMap), (1 : Nat))
        = ((m ++ [(((p.getF "urn").getD .vnull),
            .vobj (setF (spreadSrc p) "lastUpdated" (.vstr now)))] : JMap), (1 : Nat)) := rfl
    rw [show (List.foldl (mergeStep now) ((m ++ [(((p.getF "urn").getD .vnull),
        .vobj (setF (spreadSrc p) "lastUpdated" (.vstr now)))] : JMap), (1 : Nat)) rest).1
      = (mergeBatchPhase (m ++ [(((p.getF "urn").getD .vnull),
          .vobj (setF (spreadSrc p) "lastUpdated" (.vstr now)))]) rest now).1
      from mergeFold_fst rest now _ 1]
    rw [ih _ (fun q hq => hall q (List.mem_cons_of_mem _ hq))
      (fun q hq => by
        rw [mapGet_append, hfresh q (List.mem_cons_of_mem _ hq)]
        simp [mapGet, hpairhead q hq, Option.or])
      (List.pairwise_cons.mp hpair).2]
    simp

theorem mkPosts_length (n : Nat) : (mkPosts n).length = n := by
  rw [mkPosts, List.length_map, List.length_range]

theorem mkPosts_truthy (n : Nat) : ∀ p ∈ mkPosts n, truthy (p.getF "urn") = true := by
  intro p hp
  obtain ⟨i, hi, rfl⟩ := List.mem_map.mp hp
  have hne : ((i : Int) + 1) ≠ 0 := by omega
  simp [JVal.getF, objGet, truthy, hne]

theorem mkPosts_pairwise (n : Nat) : (mkPosts n).Pairwise (fun a b =>
    primEq ((a.getF "urn").getD .vnull) ((b.getF "urn").getD .vnull) = false) := by
  rw [mkPosts, List.pairwise_map]
  refine List.Pairwise.imp ?_ (List.pairwise_lt_range n)
  intro i j hij
  have hne : ((i : Int) + 1) ≠ ((j : Int) + 1) := by omega
  simp [JVal.getF, objGet, primEq, hne]

/-- C4: after every feed-post merge the persisted collection is sorted
descending by `engagementScore` and `topHits` is exactly the ranked
records with score > 50 capped at 20; the scenario
`[{urn:"a",score:60},{urn:"b",score:10}]` into an empty collection
yields `posts=[a,b]`, `topHits=[a]`; a 600-distinct-post batch into an
empty collection is trimmed to exactly 500 records, each retained
record ranking at least as high as every dropped one. -/
theorem c4_feed_rank_invariant :
    (∀ loaded batch now, (feedAllPosts loaded batch now).Sorted
      (fun a b => engagementScoreKey b ≤ engagementScoreKey a))
    ∧ (∀ loaded batch now, feedTopHits loaded batch now
        = ((feedAllPosts loaded batch now).filter
            (fun p => gtNum (p.getF "engagementScore") 50)).take 20)
    ∧ (∀ stored batch now loaded, loadedArray stored = some loaded → batch ≠ [] →
        ∃ d, (saveFeedPostsToStorage stored batch now).2 = some (.vobj d)
          ∧ objGet d "posts" = some (.varr (feedAllPosts loaded batch now))
          ∧ objGet d "topHits" = some (.varr (feedTopHits loaded batch now)))
    ∧ (feedAllPosts [] [recA, recB] "T1"
        = [.vobj (setF (spreadSrc recA) "lastUpdated" (.vstr "T1")),
           .vobj (setF (spreadSrc recB) "lastUpdated" (.vstr "T1"))]
       ∧ feedTopHits [] [recA, recB] "T1"
        = [.vobj (setF (spreadSrc recA) "lastUpdated" (.vstr "T1"))])
    ∧ (∀ now, (feedAllPosts [] (mkPosts 600) now).length = 500
       ∧ ∀ x ∈ feedAllPosts [] (mkPosts 600) now,
          ∀ y ∈ (sortByDesc engagementScoreKey
              (mapValues (mergeBatchPhase (indexByField "urn" ([] : List JVal))
                (mkPosts 600) now).1)).drop 500,
            engagementScoreKey y ≤ engagementScoreKey x) := by
  refine ⟨?_, ?_, ?_, ⟨rfl, rfl⟩, ?_⟩
  · intro loaded batch now
    exact (sortByDesc_sorted engagementScoreKey _).sublist (List.take_sublist _ _)
  · intro loaded batch now
    rfl
  · intro stored batch now loaded hload hne
    have hni : batch.isEmpty = false := by
      cases batch with
      | nil => exact absurd rfl hne
      | cons b bs => rfl
    rw [saveFeedPostsToStorage, hni]
    simp only [Bool.false_eq_true, if_false]
    rw [hload]
    exact ⟨_, rfl, rfl, rfl⟩
  · intro now
    refine ⟨?_, ?_⟩
    · rw [feedAllPosts, List.length_take, sortByDesc_length]
      rw [show indexByField "urn" ([] : List JVal) = ([] : JMap) from rfl]
      rw [mergeBatchPhase_fresh (mkPosts 600) [] now (mkPosts_truthy 600)
        (fun p _ => rfl) (mkPosts_pairwise 600)]
      simp only [List.nil_append, mapValues, List.map_map, List.length_map]
      rw [mkPosts_length]
      rfl
    · intro x hx y hy
      have hs : (sortByDesc engagementScoreKey
          (mapValues (mergeBatchPhase (indexByField "urn" ([] : List JVal))
            (mkPosts 600) now).1)).Pairwise
          (fun a b => engagementScoreKey b ≤ engagementScoreKey a) :=
        sortByDesc_sorted _ _
      rw [← List.take_append_drop 500 (sortByDesc engagementScoreKey
          (mapValues (mergeBatchPhase (indexByField "urn" ([] : List JVal))
            (mkPosts 600) now).1))] at hs
      rw [feedAllPosts] at hx
      exact (List.pairwise_append.mp hs).2.2 x hx y hy

/-- Witness for C4 at concrete inputs: the empty store succeeds and the
stored object carries exactly the ranked collection and topHits; the
600-post batch is trimmed to length 500. -/
theorem c4_witness :
    (∃ d, (saveFeedPostsToStorage none [recA, recB] "T1").2 = some (.vobj d)
      ∧ objGet d "posts" = some (.varr (feedAllPosts [] [recA, recB] "T1"))
      ∧ objGet d "topHits" = some (.varr (feedTopHits [] [recA, recB] "T1")))
    ∧ (feedAllPosts [] (mkPosts 600) "T1").length = 500 :=
  ⟨c4_feed_rank_invariant.2.2.1 none [recA, recB] "T1" [] rfl (by simp),
   (c4_feed_rank_invariant.2.2.2.2 "T1").1⟩

theorem mkTopics_length (n : Nat) : (mkTopics n).length = n := by
  rw [mkTopics, List.length_map, List.length_range]

theorem mkTopics_truthy (n : Nat) : ∀ t ∈ mkTopics n, truthy (t.getF "topic") = true := by
  intro t ht
  obtain ⟨i, hi, rfl⟩ := List.mem_map.mp ht
  have hne : ((i : Int) + 1) ≠ 0 := by omega
  simp [JVal.getF, objGet, truthy, hne]

theorem mkTopics_pairwise (n : Nat) : (mkTopics n).Pairwise (fun a b =>
    primEq ((a.getF "topic").getD .vnull) ((b.getF "topic").getD .vnull) = false) := by
  rw [mkTopics, List.pairwise_map]
  refine List.Pairwise.imp ?_ (List.pairwise_lt_range n)
  intro i j hij
  have hne : ((i : Int) + 1) ≠ ((j : Int) + 1) := by omega
  simp [JVal.getF, objGet, primEq, hne]

/-- Replacing a batch of identity-fresh topics with pairwise-distinct
keys appends their stamped forms in order. -/
theorem trendingReplacePhase_fresh (batch : List JVal) (m : JMap) (now : String)
    (hall : ∀ t ∈ batch, truthy (t.getF "topic") = true)
    (hfresh : ∀ t ∈ batch, mapGet m ((t.getF "topic").getD .vnull) = none)
    (hpair : batch.Pairwise (fun a b =>
      primEq ((a.getF "topic").getD .vnull) ((b.getF "topic").getD .vnull) = false)) :
    trendingReplacePhase m batch now
      = m ++ batch.map (fun t => (((t.getF "topic").getD .vnull),
          .vobj (setF (spreadSrc t) "lastSeen" (.vstr now)))) := by
  induction batch generalizing m with
  | nil => simp [trendingReplacePhase]
  | cons t rest ih =>
    have ht := hall t (List.mem_cons_self _ _)
    have hf := hfresh t (List.mem_cons_self _ _)
    have hpairhead := (List.pairwise_cons.mp hpair).1
    have hstep : trendingReplacePhase m (t :: rest) now
        = trendingReplacePhase
            (if truthy (t.getF "topic") then
              mapSet m ((t.getF "topic").getD .vnull)
                (.vobj (setF (spreadSrc t) "lastSeen" (.vstr now)))
            else m) rest now := rfl
    rw [hstep, if_pos ht, mapSet_of_fresh _ hf]
    rw [ih _ (fun q hq => hall q (List.mem_cons_of_mem _ hq))
      (fun q hq => by
        rw [mapGet_append, hfresh q (List.mem_cons_of_mem _ hq)]
        simp [mapGet, hpairhead q hq, Option.or])
      (List.pairwise_cons.mp hpair).2]
    simp

theorem trendingDedup_mkTopics_length :
    (trendingDedup [] (mkTopics 201) "T1").length = 201 := by
  rw [trendingDedup, show indexByField "topic" ([] : List JVal) = ([] : JMap) from rfl,
    trendingReplacePhase_fresh (mkTopics 201) [] "T1" (mkTopics_truthy 201)
      (fun t _ => rfl) (mkTopics_pairwise 201)]
  simp only [List.nil_append, mapValues, List.map_map, List.length_map]
  rw [mkTopics_length]

/-- C6 counterexample: a batch of 201 distinct topics into an empty
store persists only 200 topics but a `totalCount` of 201 — the summary
is computed from the pre-truncation dedup list, not from the truncated
collection stored alongside it. -/
theorem c6_counterexample :
    storedListField (saveTrendingToStorage none (mkTopics 201) "T1").2 "totalCount"
      = some (.vnum 201)
    ∧ arrLen (storedListField (saveTrendingToStorage none (mkTopics 201) "T1").2 "topics")
      = 200 := by
  have hsave : (saveTrendingToStorage none (mkTopics 201) "T1").2
      = some (.vobj
          [("topics", .varr ((trendingDedup [] (mkTopics 201) "T1").take 200)),
           ("totalCount", .vnum ((trendingDedup [] (mkTopics 201) "T1").length : Int)),
           ("lastUpdated", .vstr "T1")]) := by
    rw [saveTrendingToStorage, show (mkTopics 201).isEmpty = false from rfl]
    simp only [Bool.false_eq_true, if_false]
    rw [show loadedArray (storedListField none "topics") = some [] from rfl]
    rfl
  constructor
  · rw [hsave]
    show some (JVal.vnum ((trendingDedup [] (mkTopics 201) "T1").length : Int))
      = some (.vnum 201)
    rw [trendingDedup_mkTopics_length]
    rfl
  · rw [hsave]
    show ((trendingDedup [] (mkTopics 201) "T1").take 200).length = 200
    rw [List.length_take, trendingDedup_mkTopics_length]
    rfl

/-- C6 (amended): on every successful write, the feed, comments,
my-posts and post-analytics summaries are computed from the truncated
collection persisted alongside them — in particular their stored
`totalCount` equals the stored list's length, and the feed `stats` are
computed from the truncated posts.  The trending summary is the
exception: `topics` is the dedup list truncated to 200 while
`totalCount` is the length of the PRE-truncation dedup list, so it can
exceed the stored topics' length. -/
theorem c6_amended :
    (∀ stored batch now loaded, loadedArray stored = some loaded → batch ≠ [] →
      ∃ d, (saveFeedPostsToStorage stored batch now).2 = some (.vobj d)
        ∧ objGet d "posts" = some (.varr (feedAllPosts loaded batch now))
        ∧ objGet d "totalCount" = some (.vnum ((feedAllPosts loaded batch now).length : Int))
        ∧ objGet d "stats" = some (.vobj (calculateFeedStats (feedAllPosts loaded batch now))))
    ∧ (∀ stored batch now loaded,
        loadedArray (storedListField stored "comments") = some loaded → batch ≠ [] →
      ∃ d, (saveCommentsToStorage stored batch now).2 = some (.vobj d)
        ∧ objGet d "comments" = some (.varr (commentsAll loaded batch))
        ∧ objGet d "totalCount" = some (.vnum ((commentsAll loaded batch).length : Int)))
    ∧ (∀ stored batch now loaded,
        loadedArray (storedListField stored "posts") = some loaded → batch ≠ [] →
      ∃ d, (saveMyPostsToStorage stored batch now).2 = some (.vobj d)
        ∧ objGet d "posts" = some (.varr (myPostsAll loaded batch now))
        ∧ objGet d "totalCount" = some (.vnum ((myPostsAll loaded batch now).length : Int)))
    ∧ (∀ stored nd now loaded, truthy (nd.getF "activityUrn") = true →
        loadedArray (storedListField stored "posts") = some loaded →
      ∃ d, (savePostAnalyticsToStorage stored (some nd) now).2 = some (.vobj d)
        ∧ objGet d "posts" = some (.varr (analyticsAll loaded nd now))
        ∧ objGet d "totalCount" = some (.vnum ((analyticsAll loaded nd now).length : Int)))
    ∧ (∀ stored batch now loaded,
        loadedArray (storedListField stored "topics") = some loaded → batch ≠ [] →
      ∃ d, (saveTrendingToStorage stored batch now).2 = some (.vobj d)
        ∧ objGet d "topics" = some (.varr ((trendingDedup loaded batch now).take 200))
        ∧ objGet d "totalCount" = some (.vnum ((trendingDedup loaded batch now).length : Int))) := by
  refine ⟨?_, ?_, ?_, ?_, ?_⟩
  · intro stored batch now loaded hload hne
    have hni : batch.isEmpty = false := by
      cases batch with
      | nil => exact absurd rfl hne
      | cons b bs => rfl
    rw [saveFeedPostsToStorage, hni]
    simp only [Bool.false_eq_true, if_false]
    rw [hload]
    exact ⟨_, rfl, rfl, rfl, rfl⟩
  · intro stored batch now loaded hload hne
    have hni : batch.isEmpty = false := by
      cases batch with
      | nil => exact absurd rfl hne
      | cons b bs => rfl
    rw [saveCommentsToStorage, hni]
    simp only [Bool.false_eq_true, if_false]
    rw [hload]
    exact ⟨_, rfl, rfl, rfl⟩
  · intro stored batch now loaded hload hne
    have hni : batch.isEmpty = false := by
      cases batch with
      | nil => exact absurd rfl hne
      | cons b bs => rfl
    rw [saveMyPostsToStorage, hni]
    simp only [Bool.false_eq_true, if_false]
    rw [hload]
    exact ⟨_, rfl, rfl, rfl⟩
  · intro stored nd now loaded ht hload
    rw [savePostAnalyticsToStorage,
      show (some nd).bind (fun d => d.getF "activityUrn") = nd.getF "activityUrn" from rfl,
      ht]
    simp only [Bool.not_true, Bool.false_eq_true, if_false]
    rw [hload]
    exact ⟨_, rfl, rfl, rfl⟩
  · intro stored batch now loaded hload hne
    have hni : batch.isEmpty = false := by
      cases batch with
      | nil => exact absurd rfl hne
      | cons b bs => rfl
    rw [saveTrendingToStorage, hni]
    simp only [Bool.false_eq_true, if_false]
    rw [hload]
    exact ⟨_, rfl, rfl, rfl⟩

/-- Witness for C6 (amended): a one-topic trending save into the empty
store, where the stored `topics` and `totalCount` agree with the dedup
list. -/
theorem c6_witness :
    ∃ d, (saveTrendingToStorage none [topicAi] "T1").2 = some (.vobj d)
      ∧ objGet d "topics" = some (.varr ((trendingDedup [] [topicAi] "T1").take 200))
      ∧ objGet d "totalCount" = some (.vnum ((trendingDedup [] [topicAi] "T1").length : Int)) :=
  c6_amended.2.2.2.2 none [topicAi] "T1" [] rfl (by simp)

/-! ### Idempotence machinery (C5) -/

/-- The map component of the comments fold ignores the running count. -/
theorem commentsFold_fst (l : List JVal) :
    ∀ (m : JMap) (c : Nat), (l.foldl commentStep (m, c)).1 = (commentsAddPhase m l).1 := by
  induction l with
  | nil => intro m c; rfl
  | cons p rest ih =>
    intro m c
    have hfst : ∀ c2 : Nat, (commentStep (m, c2) p).1 = (commentStep (m, 0) p).1 := by
      intro c2
      by_cases hc : (truthy (p.getF "urn")
          && !(mapHas m ((p.getF "urn").getD .vnull))) = true <;>
        simp [commentStep, hc]
    have hpair : ∀ c2 : Nat,
        ((commentStep (m, c2) p).1, (commentStep (m, c2) p).2) = commentStep (m, c2) p := by
      intro c2; rfl
    rw [commentsAddPhase, List.foldl_cons, List.foldl_cons]
    calc (List.foldl commentStep (commentStep (m, c) p) rest).1
        = (commentsAddPhase (commentStep (m, c) p).1 rest).1 := by
          rw [← hpair c]; exact ih _ _
      _ = (commentsAddPhase (commentStep (m, 0) p).1 rest).1 := by rw [hfst c]
      _ = (List.foldl commentStep (commentStep (m, 0) p) rest).1 := by
          rw [← hpair 0]; exact (ih _ _).symm

/-- A key present before the comments pass is still present after it. -/
theorem commentsHas_mono {m : JMap} {k : JVal} (batch : List JVal)
    (h : mapHas m k = true) : mapHas (commentsAddPhase m batch).1 k = true := by
  unfold commentsAddPhase
  refine foldl_inv (fun s : JMap × Nat => mapHas s.1 k = true) _ ?_ batch (m, 0) h
  intro s c hs
  unfold commentStep
  split
  next =>
    show mapHas (mapSet s.1 ((c.getF "urn").getD .vnull) c) k = true
    rw [mapHas, mapGet_mapSet]
    by_cases hpc : primEq ((c.getF "urn").getD .vnull) k = true
    · rw [if_pos hpc]; rfl
    · rw [if_neg hpc]; exact hs
  next => exact hs

/-- After the comments pass, every batch record with a truthy primitive
urn is present in the map. -/
theorem commentsAddPhase_has (batch : List JVal) :
    ∀ (m : JMap) (c : JVal), c ∈ batch → truthy (c.getF "urn") = true →
      primEq ((c.getF "urn").getD .vnull) ((c.getF "urn").getD .vnull) = true →
      mapHas (commentsAddPhase m batch).1 ((c.getF "urn").getD .vnull) = true := by
  induction batch with
  | nil => intro m c hc; simp at hc
  | cons c0 rest ih =>
    intro m c hc ht hprim
    rw [commentsAddPhase, List.foldl_cons]
    have hpair : ((commentStep (m, 0) c0).1, (commentStep (m, 0) c0).2)
        = commentStep (m, 0) c0 := rfl
    rw [show (List.foldl commentStep (commentStep (m, 0) c0) rest).1
        = (commentsAddPhase (commentStep (m, 0) c0).1 rest).1 from by
      rw [← hpair]; exact commentsFold_fst rest _ _]
    rcases List.mem_cons.mp hc with rfl | hcr
    · refine commentsHas_mono rest ?_
      unfold commentStep
      by_cases hcond : (truthy (c.getF "urn")
          && !(mapHas m ((c.getF "urn").getD .vnull))) = true
      · simp only [hcond, if_true]
        show mapHas (mapSet m ((c.getF "urn").getD .vnull) c) _ = true
        rw [mapHas, mapGet_mapSet, if_pos hprim]
        rfl
      · simp only [hcond, Bool.false_eq_true, if_false]
        simp only [ht, Bool.true_and, Bool.not_eq_true', Bool.not_eq_false] at hcond
        exact hcond
    · exact ih _ c hcr ht hprim

/-- Every value of an identity-keyed map has a truthy identity field. -/
theorem mapValues_truthy {fld : String} {m : JMap} (hk : keyedBy fld m) :
    ∀ v ∈ mapValues m, truthy (v.getF fld) = true := by
  intro v hv
  obtain ⟨e, he, rfl⟩ := List.mem_map.mp hv
  exact (hk e he).2

/-- The values of an identity-keyed map with pairwise-distinct keys have
pairwise-distinct identity fields. -/
theorem mapValues_pairwise {fld : String} {m : JMap} (hk : keyedBy fld m)
    (hp : pairwiseKeys m) :
    (mapValues m).Pairwise (fun a b =>
      primEq ((a.getF fld).getD .vnull) ((b.getF fld).getD .vnull) = false) := by
  rw [mapValues, List.pairwise_map]
  refine hp.imp_of_mem ?_
  intro a b ha hb hr
  rw [← (hk a ha).1, ← (hk b hb).1]
  exact hr

/-- Rebuilding the index over a keyed, pairwise-distinct item list finds
each item at its identity key. -/
theorem indexByField_get (fld : String) (items : List JVal)
    (hall : ∀ it ∈ items, truthy (it.getF fld) = true)
    (hpair : items.Pairwise (fun a b =>
      primEq ((a.getF fld).getD .vnull) ((b.getF fld).getD .vnull) = false))
    {v : JVal} (hv : v ∈ items)
    (hprim : primEq ((v.getF fld).getD .vnull) ((v.getF fld).getD .vnull) = true) :
    mapGet (indexByField fld items) ((v.getF fld).getD .vnull) = some v := by
  rw [indexByField_eq fld items hall hpair]
  refine mapGet_of_mem_pairwise ?_ ?_ hprim
  · exact List.mem_map_of_mem _ hv
  · exact List.pairwise_map.mpr hpair

/-- Re-indexing a permutation of a keyed map's values preserves lookup. -/
theorem mapGet_reindex {fld : String} {m : JMap} (hk : keyedBy fld m) (hp : pairwiseKeys m)
    (L : List JVal) (hperm : L.Perm (mapValues m)) {k v : JVal}
    (hget : mapGet m k = some v) (hprim : primEq k k = true) :
    mapGet (indexByField fld L) k = some v := by
  obtain ⟨k0, hmem, hk0⟩ := mapGet_some_mem hget
  have hk0e : k0 = k := primEq_eq hk0
  subst hk0e
  have hkey : k0 = (v.getF fld).getD .vnull := (hk (k0, v) hmem).1
  have hvL : v ∈ L := hperm.mem_iff.mpr (List.mem_map_of_mem _ hmem)
  have hallL : ∀ it ∈ L, truthy (it.getF fld) = true := fun it hit =>
    mapValues_truthy hk it (hperm.mem_iff.mp hit)
  have hsymm : ∀ {a b : JVal},
      primEq ((a.getF fld).getD .vnull) ((b.getF fld).getD .vnull) = false →
      primEq ((b.getF fld).getD .vnull) ((a.getF fld).getD .vnull) = false := by
    intro a b h
    rw [primEq_symm]; exact h
  have hpairL : L.Pairwise (fun a b =>
      primEq ((a.getF fld).getD .vnull) ((b.getF fld).getD .vnull) = false) :=
    (hperm.pairwise_iff hsymm).mpr (mapValues_pairwise hk hp)
  rw [hkey]
  exact indexByField_get fld L hallL hpairL hvL (hkey ▸ hprim)

/-- Re-submitting a comment batch to the already-consolidated list adds
nothing: the pass reports zero new and the rebuilt collection is
unchanged (no eviction, primitive urns). -/
theorem commentsAll_idem (loaded batch : List JVal)
    (hcap : (commentsAddPhase (indexByField "urn" loaded) batch).1.length ≤ 1000)
    (hprimB : ∀ c ∈ batch, truthy (c.getF "urn") = true →
      primEq ((c.getF "urn").getD .vnull) ((c.getF "urn").getD .vnull) = true) :
    commentsAddPhase (indexByField "urn" (commentsAll loaded batch)) batch
      = (indexByField "urn" (commentsAll loaded batch), 0)
    ∧ commentsAll (commentsAll loaded batch) batch = commentsAll loaded batch := by
  have hinv := commentsAddPhase_inv batch (indexByField_inv "urn" loaded)
  have hperm : (sortByDesc likesKey
        (mapValues (commentsAddPhase (indexByField "urn" loaded) batch).1)).Perm
      (mapValues (commentsAddPhase (indexByField "urn" loaded) batch).1) :=
    List.perm_insertionSort _ _
  have hLlen : (sortByDesc likesKey
      (mapValues (commentsAddPhase (indexByField "urn" loaded) batch).1)).length ≤ 1000 := by
    rw [sortByDesc_length, mapValues, List.length_map]
    exact hcap
  have hAll : commentsAll loaded batch
      = sortByDesc likesKey (mapValues (commentsAddPhase (indexByField "urn" loaded) batch).1) := by
    rw [commentsAll]
    exact List.take_of_length_le hLlen
  have hallL : ∀ it ∈ commentsAll loaded batch, truthy (it.getF "urn") = true := by
    intro it hit
    rw [hAll] at hit
    exact mapValues_truthy hinv.1 it (hperm.mem_iff.mp hit)
  have hsymm : ∀ {a b : JVal},
      primEq ((a.getF "urn").getD .vnull) ((b.getF "urn").getD .vnull) = false →
      primEq ((b.getF "urn").getD .vnull) ((a.getF "urn").getD .vnull) = false := by
    intro a b h
    rw [primEq_symm]; exact h
  have hpairL : (commentsAll loaded batch).Pairwise (fun a b =>
      primEq ((a.getF "urn").getD .vnull) ((b.getF "urn").getD .vnull) = false) := by
    rw [hAll]
    exact (hperm.pairwise_iff hsymm).mpr (mapValues_pairwise hinv.1 hinv.2)
  have hhas : ∀ c ∈ batch, truthy (c.getF "urn") = true →
      mapHas (indexByField "urn" (commentsAll loaded batch))
        ((c.getF "urn").getD .vnull) = true := by
    intro c hc ht
    have h1 : mapHas (commentsAddPhase (indexByField "urn" loaded) batch).1
        ((c.getF "urn").getD .vnull) = true :=
      commentsAddPhase_has batch (indexByField "urn" loaded) c hc ht (hprimB c hc ht)
    obtain ⟨v, hv⟩ := Option.isSome_iff_exists.mp h1
    have h2 : mapGet (indexByField "urn" (commentsAll loaded batch))
        ((c.getF "urn").getD .vnull) = some v := by
      rw [hAll]
      exact mapGet_reindex hinv.1 hinv.2 _ hperm hv (hprimB c hc ht)
    rw [mapHas, h2]
    rfl
  have hnoop := commentsAddPhase_allHas hhas
  refine ⟨hnoop, ?_⟩
  have hstep1 : commentsAll (commentsAll loaded batch) batch
      = (sortByDesc likesKey
          (mapValues (indexByField "urn" (commentsAll loaded batch)))).take 1000 := by
    rw [commentsAll, hnoop]
  rw [hstep1, indexByField_eq _ _ hallL hpairL]
  have hmv : mapValues ((commentsAll loaded batch).map
      (fun v => (((v.getF "urn").getD .vnull), v))) = commentsAll loaded batch := by
    rw [mapValues, List.map_map]
    exact List.map_id _
  rw [hmv]
  have hsorted2 : (commentsAll loaded batch).Sorted (fun a b => likesKey b ≤ likesKey a) := by
    rw [hAll]
    exact sortByDesc_sorted _ _
  rw [sortByDesc_of_sorted hsorted2]
  refine List.take_of_length_le ?_
  rw [hAll]
  exact hLlen

theorem indexByField_valuesNodup (fld : String) (items : List JVal)
    (h : ∀ it ∈ items, nodupKeys (spreadSrc it)) :
    valuesFieldsNodup (indexByField fld items) := by
  unfold indexByField
  refine foldl_inv_mem valuesFieldsNodup _ items ?_ [] (by intro e he; simp at he)
  intro m it hit hm
  by_cases ht : truthy (it.getF fld) = true
  · rw [if_pos ht]
    intro e he
    rcases mem_mapSet he with h2 | h2
    · exact hm e h2
    · subst h2
      exact h it hit
  · rw [if_neg ht]
    exact hm

theorem mergeBatchPhase_valuesNodup (m : JMap) (batch : List JVal) (now : String)
    (hm : valuesFieldsNodup m) (hb : ∀ p ∈ batch, nodupKeys (spreadSrc p)) :
    valuesFieldsNodup (mergeBatchPhase m batch now).1 := by
  unfold mergeBatchPhase
  refine foldl_inv_mem (fun s : JMap × Nat => valuesFieldsNodup s.1) _ batch ?_ (m, 0) hm
  intro s p hp hs
  unfold mergeStep
  by_cases ht : truthy (p.getF "urn") = true
  · simp only [ht, if_true]
    intro e he
    rcases mem_mapSet he with h2 | h2
    · exact hs e h2
    · subst h2
      show nodupKeys (setF (objSpread
        (optFields (mapGet s.1 ((p.getF "urn").getD .vnull))) (spreadSrc p))
        "lastUpdated" (.vstr now))
      refine nodupKeys_setF _ _ (nodupKeys_spread ?_ (hb p hp))
      cases hw : mapGet s.1 ((p.getF "urn").getD .vnull) with
      | none => exact List.Pairwise.nil
      | some w =>
        obtain ⟨k0, hmem, _⟩ := mapGet_some_mem hw
        exact hs (k0, w) hmem
  · simp only [ht, Bool.false_eq_true, if_false]
    exact hs

/-- Re-merging a my-posts batch into the already-consolidated list is a
no-op: every entry already absorbs its record, so the pass reports zero
new and the rebuilt collection is unchanged (no eviction, primitive
pairwise-distinct urns, duplicate-free field lists). -/
theorem myPostsAll_idem (loaded batch : List JVal) (now : String)
    (hcap : (mergeBatchPhase (indexByField "urn" loaded) batch now).1.length ≤ 200)
    (hprimB : ∀ p ∈ batch, truthy (p.getF "urn") = true →
      primEq ((p.getF "urn").getD .vnull) ((p.getF "urn").getD .vnull) = true)
    (hpairB : batch.Pairwise (fun a b =>
      primEq ((a.getF "urn").getD .vnull) ((b.getF "urn").getD .vnull) = false))
    (hnodupL : ∀ it ∈ loaded, nodupKeys (spreadSrc it))
    (hnodupB : ∀ p ∈ batch, nodupKeys (spreadSrc p)) :
    mergeBatchPhase (indexByField "urn" (myPostsAll loaded batch now)) batch now
      = (indexByField "urn" (myPostsAll loaded batch now), 0)
    ∧ myPostsAll (myPostsAll loaded batch now) batch now = myPostsAll loaded batch now := by
  have hinv := mergeBatchPhase_inv batch now (indexByField_inv "urn" loaded)
  have hperm : (sortByDesc myPostScoreKey
        (mapValues (mergeBatchPhase (indexByField "urn" loaded) batch now).1)).Perm
      (mapValues (mergeBatchPhase (indexByField "urn" loaded) batch now).1) :=
    List.perm_insertionSort _ _
  have hLlen : (sortByDesc myPostScoreKey
      (mapValues (mergeBatchPhase (indexByField "urn" loaded) batch now).1)).length ≤ 200 := by
    rw [sortByDesc_length, mapValues, List.length_map]
    exact hcap
  have hAll : myPostsAll loaded batch now
      = sortByDesc myPostScoreKey
          (mapValues (mergeBatchPhase (indexByField "urn" loaded) batch now).1) := by
    rw [myPostsAll]
    exact List.take_of_length_le hLlen
  have hallL : ∀ it ∈ myPostsAll loaded batch now, truthy (it.getF "urn") = true := by
    intro it hit
    rw [hAll] at hit
    exact mapValues_truthy hinv.1 it (hperm.mem_iff.mp hit)
  have hsymm : ∀ {a b : JVal},
      primEq ((a.getF "urn").getD .vnull) ((b.getF "urn").getD .vnull) = false →
      primEq ((b.getF "urn").getD .vnull) ((a.getF "urn").getD .vnull) = false := by
    intro a b h
    rw [primEq_symm]; exact h
  have hpairL : (myPostsAll loaded batch now).Pairwise (fun a b =>
      primEq ((a.getF "urn").getD .vnull) ((b.getF "urn").getD .vnull) = false) := by
    rw [hAll]
    exact (hperm.pairwise_iff hsymm).mpr (mapValues_pairwise hinv.1 hinv.2)
  have habs : ∀ p ∈ batch, truthy (p.getF "urn") = true →
      ∃ v, mapGet (indexByField "urn" (myPostsAll loaded batch now))
          ((p.getF "urn").getD .vnull) = some v ∧
        JVal.vobj (setF (objSpread (spreadSrc v) (spreadSrc p)) "lastUpdated" (.vstr now))
          = v := by
    intro p hp ht
    obtain ⟨l1, l2, hsplit⟩ := List.append_of_mem hp
    have hno : ∀ q ∈ l2, truthy (q.getF "urn") = true →
        primEq ((q.getF "urn").getD .vnull) ((p.getF "urn").getD .vnull) = false := by
      intro q hq _
      have hp2 : (l1 ++ p :: l2).Pairwise (fun a b =>
          primEq ((a.getF "urn").getD .vnull) ((b.getF "urn").getD .vnull) = false) := by
        rw [← hsplit]; exact hpairB
      have := (List.pairwise_cons.mp (List.pairwise_append.mp hp2).2.1).1 q hq
      rw [primEq_symm]
      exact this
    have hget1 : mapGet (mergeBatchPhase (indexByField "urn" loaded) batch now).1
        ((p.getF "urn").getD .vnull)
        = some (.vobj (setF
            (objSpread
              (optFields (mapGet (mergeBatchPhase (indexByField "urn" loaded) l1 now).1
                ((p.getF "urn").getD .vnull)))
              (spreadSrc p))
            "lastUpdated" (.vstr now))) := by
      rw [hsplit]
      exact mergeBatchPhase_get_last _ l1 p l2 now ht (hprimB p hp ht) hno
    have hYnodup : nodupKeys (optFields
        (mapGet (mergeBatchPhase (indexByField "urn" loaded) l1 now).1
          ((p.getF "urn").getD .vnull))) := by
      cases hw : mapGet (mergeBatchPhase (indexByField "urn" loaded) l1 now).1
          ((p.getF "urn").getD .vnull) with
      | none => exact List.Pairwise.nil
      | some w =>
        obtain ⟨k0, hmem, _⟩ := mapGet_some_mem hw
        exact mergeBatchPhase_valuesNodup _ l1 now
          (indexByField_valuesNodup "urn" loaded hnodupL)
          (fun q hq => hnodupB q (hsplit.symm ▸ List.mem_append_left _ hq))
          (k0, w) hmem
    refine ⟨.vobj (setF
        (objSpread
          (optFields (mapGet (mergeBatchPhase (indexByField "urn" loaded) l1 now).1
            ((p.getF "urn").getD .vnull)))
          (spreadSrc p))
        "lastUpdated" (.vstr now)), ?_, ?_⟩
    · rw [hAll]
      exact mapGet_reindex hinv.1 hinv.2 _ hperm hget1 (hprimB p hp ht)
    · exact congrArg JVal.vobj
        (spread_absorb _ _ now hYnodup (hnodupB p hp))
  have hnoop := mergeBatchPhase_noop (indexByField "urn" (myPostsAll loaded batch now))
    batch now habs
  refine ⟨hnoop, ?_⟩
  have hstep1 : myPostsAll (myPostsAll loaded batch now) batch now
      = (sortByDesc myPostScoreKey
          (mapValues (indexByField "urn" (myPostsAll loaded batch now)))).take 200 := by
    rw [myPostsAll, hnoop]
  rw [hstep1, indexByField_eq _ _ hallL hpairL]
  have hmv : mapValues ((myPostsAll loaded batch now).map
      (fun v => (((v.getF "urn").getD .vnull), v))) = myPostsAll loaded batch now := by
    rw [mapValues, List.map_map]
    exact List.map_id _
  rw [hmv]
  have hsorted2 : (myPostsAll loaded batch now).Sorted
      (fun a b => myPostScoreKey b ≤ myPostScoreKey a) := by
    rw [hAll]
    exact sortByDesc_sorted _ _
  rw [sortByDesc_of_sorted hsorted2]
  refine List.take_of_length_le ?_
  rw [hAll]
  exact hLlen

/-- Re-submitting a trending batch to the already-deduped list is a
no-op: every topic entry is replaced by the identical stamped record
(primitive pairwise-distinct topic keys, same timestamp). -/
theorem trendingDedup_idem (loaded batch : List JVal) (now : String)
    (hprimB : ∀ t ∈ batch, truthy (t.getF "topic") = true →
      primEq ((t.getF "topic").getD .vnull) ((t.getF "topic").getD .vnull) = true)
    (hpairB : batch.Pairwise (fun a b =>
      primEq ((a.getF "topic").getD .vnull) ((b.getF "topic").getD .vnull) = false)) :
    trendingReplacePhase (indexByField "topic" (trendingDedup loaded batch now)) batch now
      = indexByField "topic" (trendingDedup loaded batch now)
    ∧ trendingDedup (trendingDedup loaded batch now) batch now
      = trendingDedup loaded batch now := by
  have hinv := trendingReplacePhase_inv batch now (indexByField_inv "topic" loaded)
  have hA : trendingDedup loaded batch now
      = mapValues (trendingReplacePhase (indexByField "topic" loaded) batch now) := rfl
  have hallL : ∀ it ∈ trendingDedup loaded batch now, truthy (it.getF "topic") = true := by
    intro it hit
    rw [hA] at hit
    exact mapValues_truthy hinv.1 it hit
  have hpairL : (trendingDedup loaded batch now).Pairwise (fun a b =>
      primEq ((a.getF "topic").getD .vnull) ((b.getF "topic").getD .vnull) = false) := by
    rw [hA]
    exact mapValues_pairwise hinv.1 hinv.2
  have hgets : ∀ t ∈ batch, truthy (t.getF "topic") = true →
      mapGet (indexByField "topic" (trendingDedup loaded batch now))
          ((t.getF "topic").getD .vnull)
        = some (.vobj (setF (spreadSrc t) "lastSeen" (.vstr now))) := by
    intro t htb ht
    obtain ⟨l1, l2, hsplit⟩ := List.append_of_mem htb
    have hno : ∀ q ∈ l2, truthy (q.getF "topic") = true →
        primEq ((q.getF "topic").getD .vnull) ((t.getF "topic").getD .vnull) = false := by
      intro q hq _
      have hp2 : (l1 ++ t :: l2).Pairwise (fun a b =>
          primEq ((a.getF "topic").getD .vnull) ((b.getF "topic").getD .vnull) = false) := by
        rw [← hsplit]; exact hpairB
      have := (List.pairwise_cons.mp (List.pairwise_append.mp hp2).2.1).1 q hq
      rw [primEq_symm]
      exact this
    have hget1 : mapGet (trendingReplacePhase (indexByField "topic" loaded) batch now)
        ((t.getF "topic").getD .vnull)
        = some (.vobj (setF (spreadSrc t) "lastSeen" (.vstr now))) := by
      rw [hsplit]
      exact trendingReplacePhase_get_last _ l1 t l2 now ht (hprimB t htb ht) hno
    rw [hA]
    exact mapGet_reindex hinv.1 hinv.2 _ (List.Perm.refl _) hget1 (hprimB t htb ht)
  have hnoop := trendingReplacePhase_noop
    (indexByField "topic" (trendingDedup loaded batch now)) batch now hgets
  refine ⟨hnoop, ?_⟩
  have hstep1 : trendingDedup (trendingDedup loaded batch now) batch now
      = mapValues (indexByField "topic" (trendingDedup loaded batch now)) := by
    rw [trendingDedup, hnoop]
  rw [hstep1, indexByField_eq _ _ hallL hpairL, mapValues, List.map_map]
  exact List.map_id _

theorem updateWhere_eq_none {l : List JVal} {p : JVal → Bool} {f : JVal → JVal}
    (h : updateWhere l p f = none) : ∀ x ∈ l, p x = false := by
  induction l with
  | nil => intro x hx; simp at hx
  | cons a rest ih =>
    intro x hx
    rw [updateWhere] at h
    by_cases hpa : p a = true
    · rw [if_pos hpa] at h
      exact absurd h (by simp)
    · rw [if_neg hpa] at h
      rcases List.mem_cons.mp hx with rfl | hxr
      · exact Bool.eq_false_iff.mpr hpa
      · have hrest : updateWhere rest p f = none := by
          cases hu : updateWhere rest p f with
          | none => rfl
          | some l2 =>
            rw [hu] at h
            simp [Option.map] at h
        exact ih hrest x hxr

/-- When every matching entry is replaced by itself, the in-place update
returns the list unchanged. -/
theorem updateWhere_self {l : List JVal} {p : JVal → Bool} {f : JVal → JVal}
    (hid : ∀ x ∈ l, p x = true → f x = x) (hex : ∃ x ∈ l, p x = true) :
    updateWhere l p f = some l := by
  induction l with
  | nil =>
    obtain ⟨x, hx, _⟩ := hex
    simp at hx
  | cons a rest ih =>
    rw [updateWhere]
    by_cases hpa : p a = true
    · rw [if_pos hpa, hid a (List.mem_cons_self _ _) hpa]
    · rw [if_neg hpa]
      have hex2 : ∃ x ∈ rest, p x = true := by
        obtain ⟨x, hx, hpx⟩ := hex
        rcases List.mem_cons.mp hx with rfl | hxr
        · exact absurd hpx hpa
        · exact ⟨x, hxr, hpx⟩
      rw [ih (fun x hx hpx => hid x (List.mem_cons_of_mem _ hx) hpx) hex2]
      rfl

/-- A freshly appended analytics record absorbs a re-merge of the same
incoming record (it never has its own `firstCaptured` field). -/
theorem analyticsAbsorb (N : JObj) (v1 v2 : JVal) (hN : nodupKeys N)
    (hfc : objGet N "firstCaptured" = none) :
    setF (objSpread (setF (setF N "firstCaptured" v1) "lastUpdated" v2) N) "lastUpdated" v2
      = setF (setF N "firstCaptured" v1) "lastUpdated" v2 := by
  have hAnodup : nodupKeys (setF (setF N "firstCaptured" v1) "lastUpdated" v2) :=
    nodupKeys_setF _ _ (nodupKeys_setF _ _ hN)
  have hAlu : objGet (setF (setF N "firstCaptured" v1) "lastUpdated" v2) "lastUpdated"
      = some v2 := objGet_setF_same _ _ _
  have hAother : ∀ k, k ≠ "lastUpdated" → k ≠ "firstCaptured" →
      objGet (setF (setF N "firstCaptured" v1) "lastUpdated" v2) k = objGet N k := by
    intro k h1 h2
    rw [objGet_setF_other _ _ _ _ h1, objGet_setF_other _ _ _ _ h2]
  have hNcov : ∀ kk ∈ N.map Prod.fst,
      objHas (setF (setF N "firstCaptured" v1) "lastUpdated" v2) kk = true := by
    intro kk hkk
    by_cases hlu : kk = "lastUpdated"
    · subst hlu
      simp [objHas, hAlu]
    · by_cases hfck : kk = "firstCaptured"
      · subst hfck
        exact absurd hkk ((objGet_eq_none_iff N _).mp hfc)
      · have hNk : objGet N kk ≠ none := fun hnone =>
          ((objGet_eq_none_iff N kk).mp hnone) hkk
        rw [objHas, hAother kk hlu hfck]
        cases hNget : objGet N kk with
        | none => exact absurd hNget hNk
        | some w => rfl
  have hkeysSp : (objSpread (setF (setF N "firstCaptured" v1) "lastUpdated" v2) N).map Prod.fst
      = (setF (setF N "firstCaptured" v1) "lastUpdated" v2).map Prod.fst :=
    spread_keys_covered hNcov
  have hhasLu : objHas (objSpread (setF (setF N "firstCaptured" v1) "lastUpdated" v2) N)
      "lastUpdated" = true := by
    rw [objHas, objGet_spread, hAlu]
    cases objGet N "lastUpdated" <;> simp [Option.or]
  have hkeys : (setF (objSpread (setF (setF N "firstCaptured" v1) "lastUpdated" v2) N)
      "lastUpdated" v2).map Prod.fst
      = (setF (setF N "firstCaptured" v1) "lastUpdated" v2).map Prod.fst := by
    rw [setF_keys_of_has _ hhasLu, hkeysSp]
  refine objExt ?_ hkeys ?_
  · show ((setF (objSpread (setF (setF N "firstCaptured" v1) "lastUpdated" v2) N)
      "lastUpdated" v2).map Prod.fst).Nodup
    rw [hkeys]
    exact hAnodup
  · intro k
    by_cases hlu : k = "lastUpdated"
    · subst hlu
      rw [objGet_setF_same, hAlu]
    · rw [objGet_setF_other _ _ _ _ hlu, objGet_spread]
      by_cases hfck : k = "firstCaptured"
      · subst hfck
        rw [hfc]
        cases hAg : objGet (setF (setF N "firstCaptured" v1) "lastUpdated" v2)
            "firstCaptured" <;> simp [Option.or, hAg]
      · rw [hAother k hlu hfck]
        cases hNg : objGet N k <;> simp [Option.or]

/-- Successful in-place update: the updated entry is the first match,
nothing before it matches, and the result replaces it in place. -/
theorem updateWhere_eq_some {l l2' : List JVal} {p : JVal → Bool} {f : JVal → JVal}
    (h : updateWhere l p f = some l2') :
    ∃ l1 x l2, l = l1 ++ x :: l2 ∧ p x = true ∧ (∀ y ∈ l1, p y = false)
      ∧ l2' = l1 ++ f x :: l2 := by
  induction l generalizing l2' with
  | nil => simp [updateWhere] at h
  | cons a rest ih =>
    rw [updateWhere] at h
    by_cases hpa : p a = true
    · rw [if_pos hpa] at h
      refine ⟨[], a, rest, rfl, hpa, by simp, ?_⟩
      exact (Option.some.inj h).symm
    · rw [if_neg hpa] at h
      cases hu : updateWhere rest p f with
      | none =>
        rw [hu] at h
        simp at h
      | some lr =>
        rw [hu] at h
        have hl2' : l2' = a :: lr := (Option.some.inj h).symm
        obtain ⟨l1, x, l2, hsplit, hpx, hl1, hlr⟩ := ih hu
        refine ⟨a :: l1, x, l2, ?_, hpx, ?_, ?_⟩
        · rw [hsplit]
          rfl
        · intro y hy
          rcases List.mem_cons.mp hy with rfl | hyr
          · exact Bool.eq_false_iff.mpr hpa
          · exact hl1 y hyr
        · rw [hl2', hlr]
          rfl

/-- Re-submitting the same analytics record to the consolidated list is
a no-op on the collection: whether the first call appended it or merged
it into the (unique) existing entry for its urn, the second call finds
that entry and merges the record into itself (no eviction; primitive
urn; duplicate-free field lists; pairwise-distinct stored urns; no self
`firstCaptured` field). -/
theorem analyticsAll_idem (loaded : List JVal) (nd : JVal) (now : String)
    (ht : truthy (nd.getF "activityUrn") = true)
    (hcap : loaded.length + 1 ≤ 100)
    (hprim : primEq ((nd.getF "activityUrn").getD .vnull)
      ((nd.getF "activityUrn").getD .vnull) = true)
    (hnodup : nodupKeys (spreadSrc nd))
    (hfc : nd.getF "firstCaptured" = none)
    (hnodupL : ∀ it ∈ loaded, nodupKeys (spreadSrc it))
    (hpairL : loaded.Pairwise (fun a b =>
      primEq ((a.getF "activityUrn").getD .vnull)
        ((b.getF "activityUrn").getD .vnull) = false)) :
    analyticsAll (analyticsAll loaded nd now) nd now = analyticsAll loaded nd now
    ∧ (analyticsWithNew (analyticsAll loaded nd now) nd now).isSome = true := by
  cases hnew : analyticsWithNew loaded nd now with
  | some Lupd =>
    have hupd := hnew
    rw [analyticsWithNew] at hupd
    obtain ⟨l1, x, l2, hsplit, hpx, hl1, hLupd⟩ := updateWhere_eq_some hupd
    have hxmem : x ∈ loaded := by
      rw [hsplit]
      exact List.mem_append_right _ (List.mem_cons_self _ _)
    have hndsome : (nd.getF "activityUrn").isSome = true := by
      obtain ⟨u, hu⟩ := truthy_isSome ht
      simp [hu]
    have hlenL : Lupd.length = loaded.length := by
      rw [hLupd, hsplit]
      simp
    have hA1 : analyticsAll loaded nd now = sortByDesc impressionsKey Lupd := by
      rw [analyticsAll, hnew]
      refine List.take_of_length_le ?_
      show (sortByDesc impressionsKey Lupd).length ≤ 100
      rw [sortByDesc_length, hlenL]
      omega
    have hperm : (analyticsAll loaded nd now).Perm Lupd := by
      rw [hA1]
      exact List.perm_insertionSort _ _
    have hfxurn : (JVal.vobj (setF (objSpread (spreadSrc x) (spreadSrc nd)) "lastUpdated"
        (.vstr now))).getF "activityUrn" = nd.getF "activityUrn" :=
      mergeVal_getF (spreadSrc x) nd now "activityUrn" (by decide) hndsome
    have hl2 : ∀ y ∈ l2, primEq ((y.getF "activityUrn").getD .vnull)
        ((nd.getF "activityUrn").getD .vnull) = false := by
      intro y hy
      cases hb : primEq ((y.getF "activityUrn").getD .vnull)
          ((nd.getF "activityUrn").getD .vnull) with
      | false => rfl
      | true =>
        exfalso
        have hxe : (x.getF "activityUrn").getD .vnull
            = (nd.getF "activityUrn").getD .vnull := primEq_eq hpx
        have hye : (y.getF "activityUrn").getD .vnull
            = (nd.getF "activityUrn").getD .vnull := primEq_eq hb
        have hpair2 : (l1 ++ x :: l2).Pairwise (fun a b =>
            primEq ((a.getF "activityUrn").getD .vnull)
              ((b.getF "activityUrn").getD .vnull) = false) := by
          rw [← hsplit]
          exact hpairL
        have hxy := (List.pairwise_cons.mp (List.pairwise_append.mp hpair2).2.1).1 y hy
        rw [hxe, hye, hprim] at hxy
        exact absurd hxy (by simp)
    have hup : analyticsWithNew (analyticsAll loaded nd now) nd now
        = some (analyticsAll loaded nd now) := by
      rw [analyticsWithNew]
      refine updateWhere_self ?_ ?_
      · intro y hy hpy
        have hyL : y ∈ Lupd := hperm.mem_iff.mp hy
        rw [hLupd] at hyL
        rcases List.mem_append.mp hyL with hy1 | hy2
        · exact absurd hpy (by simp [hl1 y hy1])
        · rcases List.mem_cons.mp hy2 with rfl | hy3
          · exact congrArg JVal.vobj (spread_absorb (spreadSrc x) (spreadSrc nd) now
              (hnodupL x hxmem) hnodup)
          · exact absurd hpy (by simp [hl2 y hy3])
      · refine ⟨.vobj (setF (objSpread (spreadSrc x) (spreadSrc nd)) "lastUpdated"
            (.vstr now)), ?_, ?_⟩
        · refine hperm.mem_iff.mpr ?_
          rw [hLupd]
          exact List.mem_append_right _ (List.mem_cons_self _ _)
        · rw [hfxurn]
          exact hprim
    refine ⟨?_, ?_⟩
    · rw [analyticsAll, hup]
      have hsorted : (analyticsAll loaded nd now).Sorted
          (fun a b => impressionsKey b ≤ impressionsKey a) := by
        rw [hA1]
        exact sortByDesc_sorted _ _
      show (sortByDesc impressionsKey (analyticsAll loaded nd now)).take 100
        = analyticsAll loaded nd now
      rw [sortByDesc_of_sorted hsorted]
      refine List.take_of_length_le ?_
      rw [hA1, sortByDesc_length, hlenL]
      omega
    · rw [hup]
      rfl
  | none =>
    have hA1 : analyticsAll loaded nd now
        = sortByDesc impressionsKey (loaded ++ [.vobj (setF (setF (spreadSrc nd)
            "firstCaptured" (.vstr now)) "lastUpdated" (.vstr now))]) := by
      rw [analyticsAll, hnew]
      refine List.take_of_length_le ?_
      rw [sortByDesc_length]
      simpa using hcap
    have hperm : (analyticsAll loaded nd now).Perm (loaded ++ [.vobj (setF (setF (spreadSrc nd)
        "firstCaptured" (.vstr now)) "lastUpdated" (.vstr now))]) := by
      rw [hA1]
      exact List.perm_insertionSort _ _
    have hnomatch : ∀ x ∈ loaded,
        primEq ((x.getF "activityUrn").getD .vnull)
          ((nd.getF "activityUrn").getD .vnull) = false := by
      rw [analyticsWithNew] at hnew
      exact updateWhere_eq_none hnew
    have hvurn : (JVal.vobj (setF (setF (spreadSrc nd) "firstCaptured" (.vstr now))
        "lastUpdated" (.vstr now))).getF "activityUrn" = nd.getF "activityUrn" := by
      show objGet (setF (setF (spreadSrc nd) "firstCaptured" (.vstr now))
        "lastUpdated" (.vstr now)) "activityUrn" = nd.getF "activityUrn"
      rw [objGet_setF_other _ _ _ _ (by decide), objGet_setF_other _ _ _ _ (by decide),
        getF_spreadSrc]
    have hup : analyticsWithNew (analyticsAll loaded nd now) nd now
        = some (analyticsAll loaded nd now) := by
      rw [analyticsWithNew]
      refine updateWhere_self ?_ ?_
      · intro x hx hpx
        rcases List.mem_append.mp (hperm.mem_iff.mp hx) with hxl | hxv
        · exact absurd hpx (by simp [hnomatch x hxl])
        · have hxeq : x = .vobj (setF (setF (spreadSrc nd) "firstCaptured" (.vstr now))
              "lastUpdated" (.vstr now)) := by simpa using hxv
          subst hxeq
          exact congrArg JVal.vobj (analyticsAbsorb (spreadSrc nd) _ _ hnodup
            (by rw [getF_spreadSrc]; exact hfc))
      · refine ⟨.vobj (setF (setF (spreadSrc nd) "firstCaptured" (.vstr now))
            "lastUpdated" (.vstr now)), ?_, ?_⟩
        · exact hperm.mem_iff.mpr (List.mem_append_right _ (List.mem_singleton_self _))
        · rw [hvurn]
          exact hprim
    refine ⟨?_, ?_⟩
    · rw [analyticsAll, hup]
      have hsorted : (analyticsAll loaded nd now).Sorted
          (fun a b => impressionsKey b ≤ impressionsKey a) := by
        rw [hA1]
        exact sortByDesc_sorted _ _
      show (sortByDesc impressionsKey (analyticsAll loaded nd now)).take 100
        = analyticsAll loaded nd now
      rw [sortByDesc_of_sorted hsorted]
      refine List.take_of_length_le ?_
      rw [hA1, sortByDesc_length]
      simpa using hcap
    · rw [hup]
      rfl

/-- C5 counterexample: submitting the identical followers payload twice
(with the same timestamp) appends a second identical history entry —
the stored state after the second submission differs from the state
after the first, refuting idempotence for every collection type. -/
theorem c5_counterexample :
    arrLen (storedListField (saveFollowersToStorage none (some ndCount5) "T1").2 "history") = 1
    ∧ arrLen (storedListField (saveFollowersToStorage
        (saveFollowersToStorage none (some ndCount5) "T1").2 (some ndCount5) "T1").2
        "history") = 2 :=
  ⟨rfl, rfl⟩

/-- C5 (amended): re-submitting the same batch (same timestamp) is
idempotent on the stored state for feed posts (degenerately: every
re-save fails and leaves storage unchanged), and — provided the first
call succeeded, nothing was evicted, and identity keys are primitive
and pairwise distinct (with duplicate-free field lists where fields are
re-spread) — for comments, my-posts, trending and post-analytics: the
second call stores an identical object and reports zero new records
(comments/my-posts), an identical count (trending), or an update with
the same total (post-analytics).  For post-analytics this covers both
a first call that appended the record and one that merged it into the
(pairwise-distinct-urn) stored collection, and requires the payload
not to carry its own `firstCaptured` field — a payload with one has it
overwritten by the stamp on the first call and restored by the spread
on the second, changing the stored state.  The followers save is the
exception (see the counterexample): a truthy followerCount appends a
history entry on every call. -/
theorem c5_amended :
    (∀ stored batch now,
      (saveFeedPostsToStorage (saveFeedPostsToStorage stored batch now).2 batch now).2
        = (saveFeedPostsToStorage stored batch now).2)
    ∧ (∀ stored batch now loaded,
        loadedArray (storedListField stored "comments") = some loaded → batch ≠ [] →
        (commentsAddPhase (indexByField "urn" loaded) batch).1.length ≤ 1000 →
        (∀ c ∈ batch, truthy (c.getF "urn") = true →
          primEq ((c.getF "urn").getD .vnull) ((c.getF "urn").getD .vnull) = true) →
        (saveCommentsToStorage (saveCommentsToStorage stored batch now).2 batch now).2
          = (saveCommentsToStorage stored batch now).2
        ∧ (saveCommentsToStorage (saveCommentsToStorage stored batch now).2 batch now).1
          = [("success", .vbool true), ("newCount", .vnum 0),
             ("totalCount", .vnum ((commentsAll loaded batch).length : Int))])
    ∧ (∀ stored batch now loaded,
        loadedArray (storedListField stored "posts") = some loaded → batch ≠ [] →
        (mergeBatchPhase (indexByField "urn" loaded) batch now).1.length ≤ 200 →
        (∀ p ∈ batch, truthy (p.getF "urn") = true →
          primEq ((p.getF "urn").getD .vnull) ((p.getF "urn").getD .vnull) = true) →
        batch.Pairwise (fun a b =>
          primEq ((a.getF "urn").getD .vnull) ((b.getF "urn").getD .vnull) = false) →
        (∀ it ∈ loaded, nodupKeys (spreadSrc it)) →
        (∀ p ∈ batch, nodupKeys (spreadSrc p)) →
        (saveMyPostsToStorage (saveMyPostsToStorage stored batch now).2 batch now).2
          = (saveMyPostsToStorage stored batch now).2
        ∧ (saveMyPostsToStorage (saveMyPostsToStorage stored batch now).2 batch now).1
          = [("success", .vbool true), ("newCount", .vnum 0),
             ("totalCount", .vnum ((myPostsAll loaded batch now).length : Int))])
    ∧ (∀ stored batch now loaded,
        loadedArray (storedListField stored "topics") = some loaded → batch ≠ [] →
        (trendingReplacePhase (indexByField "topic" loaded) batch now).length ≤ 200 →
        (∀ t ∈ batch, truthy (t.getF "topic") = true →
          primEq ((t.getF "topic").getD .vnull) ((t.getF "topic").getD .vnull) = true) →
        batch.Pairwise (fun a b =>
          primEq ((a.getF "topic").getD .vnull) ((b.getF "topic").getD .vnull) = false) →
        (saveTrendingToStorage (saveTrendingToStorage stored batch now).2 batch now).2
          = (saveTrendingToStorage stored batch now).2
        ∧ (saveTrendingToStorage (saveTrendingToStorage stored batch now).2 batch now).1
          = (saveTrendingToStorage stored batch now).1)
    ∧ (∀ stored nd now loaded, truthy (nd.getF "activityUrn") = true →
        loadedArray (storedListField stored "posts") = some loaded →
        loaded.length + 1 ≤ 100 →
        primEq ((nd.getF "activityUrn").getD .vnull)
          ((nd.getF "activityUrn").getD .vnull) = true →
        nodupKeys (spreadSrc nd) →
        nd.getF "firstCaptured" = none →
        (∀ it ∈ loaded, nodupKeys (spreadSrc it)) →
        loaded.Pairwise (fun a b =>
          primEq ((a.getF "activityUrn").getD .vnull)
            ((b.getF "activityUrn").getD .vnull) = false) →
        (savePostAnalyticsToStorage (savePostAnalyticsToStorage stored (some nd) now).2
            (some nd) now).2
          = (savePostAnalyticsToStorage stored (some nd) now).2
        ∧ (savePostAnalyticsToStorage (savePostAnalyticsToStorage stored (some nd) now).2
            (some nd) now).1
          = [("success", .vbool true),
             ("totalCount", .vnum ((analyticsAll loaded nd now).length : Int)),
             ("isUpdate", .vbool true)]) := by
  refine ⟨?_, ?_, ?_, ?_, ?_⟩
  · intro stored batch now
    by_cases hb : batch.isEmpty = true
    · simp only [saveFeedPostsToStorage, hb, if_true]
    · cases hload : loadedArray stored with
      | none =>
        have h1 : (saveFeedPostsToStorage stored batch now).2 = stored := by
          rw [saveFeedPostsToStorage, if_neg hb, hload]
        rw [h1]
        exact h1
      | some loaded =>
        have h1 : (saveFeedPostsToStorage stored batch now).2
            = some (.vobj (feedDataObj (feedAllPosts loaded batch now) now)) := by
          rw [saveFeedPostsToStorage, if_neg hb, hload]
        rw [h1, saveFeedPostsToStorage, if_neg hb]
        rfl
  · intro stored batch now loaded hload hne hcap hprimB
    have hni : batch.isEmpty = false := by
      cases batch with
      | nil => exact absurd rfl hne
      | cons b bs => rfl
    have hidem := commentsAll_idem loaded batch hcap hprimB
    have hstate1 : (saveCommentsToStorage stored batch now).2
        = some (.vobj (commentsDataObj (commentsAll loaded batch) now)) := by
      rw [saveCommentsToStorage, hni]
      simp only [Bool.false_eq_true, if_false]
      rw [hload]
    have h2 : saveCommentsToStorage
        (some (.vobj (commentsDataObj (commentsAll loaded batch) now))) batch now
        = ([("success", .vbool true),
            ("newCount", .vnum
              (((commentsAddPhase (indexByField "urn" (commentsAll loaded batch)) batch).2
                : Int))),
            ("totalCount", .vnum ((commentsAll (commentsAll loaded batch) batch).length : Int))],
           some (.vobj (commentsDataObj (commentsAll (commentsAll loaded batch) batch) now))) := by
      rw [saveCommentsToStorage, hni]
      simp only [Bool.false_eq_true, if_false]
      rfl
    constructor
    · rw [hstate1, h2]
      show some (JVal.vobj (commentsDataObj (commentsAll (commentsAll loaded batch) batch) now))
        = some (JVal.vobj (commentsDataObj (commentsAll loaded batch) now))
      rw [hidem.2]
    · rw [hstate1, h2]
      show [("success", JVal.vbool true),
            ("newCount", JVal.vnum
              (((commentsAddPhase (indexByField "urn" (commentsAll loaded batch)) batch).2
                : Int))),
            ("totalCount", JVal.vnum ((commentsAll (commentsAll loaded batch) batch).length : Int))]
        = _
      rw [hidem.1, hidem.2]
      rfl
  · intro stored batch now loaded hload hne hcap hprimB hpairB hnodupL hnodupB
    have hni : batch.isEmpty = false := by
      cases batch with
      | nil => exact absurd rfl hne
      | cons b bs => rfl
    have hidem := myPostsAll_idem loaded batch now hcap hprimB hpairB hnodupL hnodupB
    have hstate1 : (saveMyPostsToStorage stored batch now).2
        = some (.vobj (myPostsDataObj (myPostsAll loaded batch now) now)) := by
      rw [saveMyPostsToStorage, hni]
      simp only [Bool.false_eq_true, if_false]
      rw [hload]
    have h2 : saveMyPostsToStorage
        (some (.vobj (myPostsDataObj (myPostsAll loaded batch now) now))) batch now
        = ([("success", .vbool true),
            ("newCount", .vnum
              (((mergeBatchPhase (indexByField "urn" (myPostsAll loaded batch now)) batch now).2
                : Int))),
            ("totalCount", .vnum
              ((myPostsAll (myPostsAll loaded batch now) batch now).length : Int))],
           some (.vobj (myPostsDataObj (myPostsAll (myPostsAll loaded batch now) batch now)
             now))) := by
      rw [saveMyPostsToStorage, hni]
      simp only [Bool.false_eq_true, if_false]
      rfl
    constructor
    · rw [hstate1, h2]
      show some (JVal.vobj (myPostsDataObj (myPostsAll (myPostsAll loaded batch now) batch now) now))
        = some (JVal.vobj (myPostsDataObj (myPostsAll loaded batch now) now))
      rw [hidem.2]
    · rw [hstate1, h2]
      show [("success", JVal.vbool true),
            ("newCount", JVal.vnum
              (((mergeBatchPhase (indexByField "urn" (myPostsAll loaded batch now)) batch now).2
                : Int))),
            ("totalCount", JVal.vnum
              ((myPostsAll (myPostsAll loaded batch now) batch now).length : Int))]
        = _
      rw [hidem.1, hidem.2]
      rfl
  · intro stored batch now loaded hload hne hcap hprimB hpairB
    have hni : batch.isEmpty = false := by
      cases batch with
      | nil => exact absurd rfl hne
      | cons b bs => rfl
    have hidem := trendingDedup_idem loaded batch now hprimB hpairB
    have hlen : (trendingDedup loaded batch now).length ≤ 200 := by
      rw [trendingDedup, mapValues, List.length_map]
      exact hcap
    have htake : (trendingDedup loaded batch now).take 200 = trendingDedup loaded batch now :=
      List.take_of_length_le hlen
    have hstate1 : (saveTrendingToStorage stored batch now).2
        = some (.vobj (trendingDataObj (trendingDedup loaded batch now) now)) := by
      rw [saveTrendingToStorage, hni]
      simp only [Bool.false_eq_true, if_false]
      rw [hload]
    have hresp1 : (saveTrendingToStorage stored batch now).1
        = [("success", .vbool true),
           ("count", .vnum ((trendingDedup loaded batch now).length : Int))] := by
      rw [saveTrendingToStorage, hni]
      simp only [Bool.false_eq_true, if_false]
      rw [hload]
    have hload2 : loadedArray (storedListField
        (some (.vobj (trendingDataObj (trendingDedup loaded batch now) now))) "topics")
        = some (trendingDedup loaded batch now) := by
      show some ((trendingDedup loaded batch now).take 200) = _
      rw [htake]
    have h2 : saveTrendingToStorage
        (some (.vobj (trendingDataObj (trendingDedup loaded batch now) now))) batch now
        = ([("success", .vbool true),
            ("count", .vnum
              ((trendingDedup (trendingDedup loaded batch now) batch now).length : Int))],
           some (.vobj (trendingDataObj (trendingDedup (trendingDedup loaded batch now) batch now)
             now))) := by
      rw [saveTrendingToStorage, hni]
      simp only [Bool.false_eq_true, if_false]
      rw [hload2]
    constructor
    · rw [hstate1, h2]
      show some (JVal.vobj (trendingDataObj (trendingDedup (trendingDedup loaded batch now) batch now)
          now))
        = some (JVal.vobj (trendingDataObj (trendingDedup loaded batch now) now))
      rw [hidem.2]
    · rw [hstate1, h2, hresp1]
      show [("success", JVal.vbool true),
            ("count", JVal.vnum
              ((trendingDedup (trendingDedup loaded batch now) batch now).length : Int))]
        = _
      rw [hidem.2]
  · intro stored nd now loaded ht hload hcap hprim hnodup hfc hnodupL hpairL
    have hidem := analyticsAll_idem loaded nd now ht hcap hprim hnodup hfc hnodupL hpairL
    have hstate1 : (savePostAnalyticsToStorage stored (some nd) now).2
        = some (.vobj (postAnalyticsDataObj (analyticsAll loaded nd now) now)) := by
      rw [savePostAnalyticsToStorage,
        show (some nd).bind (fun d => d.getF "activityUrn") = nd.getF "activityUrn" from rfl,
        ht]
      simp only [Bool.not_true, Bool.false_eq_true, if_false]
      rw [hload]
      rfl
    have h2 : savePostAnalyticsToStorage
        (some (.vobj (postAnalyticsDataObj (analyticsAll loaded nd now) now))) (some nd) now
        = ([("success", .vbool true),
            ("totalCount", .vnum
              ((analyticsAll (analyticsAll loaded nd now) nd now).length : Int)),
            ("isUpdate", .vbool
              ((analyticsWithNew (analyticsAll loaded nd now) nd now).isSome))],
           some (.vobj (postAnalyticsDataObj (analyticsAll (analyticsAll loaded nd now) nd now)
             now))) := by
      rw [savePostAnalyticsToStorage,
        show (some nd).bind (fun d => d.getF "activityUrn") = nd.getF "activityUrn" from rfl,
        ht]
      simp only [Bool.not_true, Bool.false_eq_true, if_false]
      rfl
    constructor
    · rw [hstate1, h2]
      show some (JVal.vobj (postAnalyticsDataObj (analyticsAll (analyticsAll loaded nd now) nd now)
          now))
        = some (JVal.vobj (postAnalyticsDataObj (analyticsAll loaded nd now) now))
      rw [hidem.1]
    · rw [hstate1, h2]
      show [("success", JVal.vbool true),
            ("totalCount", JVal.vnum
              ((analyticsAll (analyticsAll loaded nd now) nd now).length : Int)),
            ("isUpdate", JVal.vbool
              ((analyticsWithNew (analyticsAll loaded nd now) nd now).isSome))]
        = _
      rw [hidem.1, hidem.2]

/-- Witness for C5 (amended): re-submitting a one-comment batch to the
empty store stores an identical object and reports zero new. -/
theorem c5_witness :
    (saveCommentsToStorage (saveCommentsToStorage none [commentC1a] "T1").2 [commentC1a] "T1").2
      = (saveCommentsToStorage none [commentC1a] "T1").2
    ∧ (saveCommentsToStorage (saveCommentsToStorage none [commentC1a] "T1").2
        [commentC1a] "T1").1
      = [("success", .vbool true), ("newCount", .vnum 0),
         ("totalCount", .vnum ((commentsAll [] [commentC1a]).length : Int))] :=
  c5_amended.2.1 none [commentC1a] "T1" [] rfl (by simp) (by decide) (by decide)

/-! ### Message protocol (C9) -/

theorem appendToStorage_success (stored : Option JVal) (nd : JVal) (now : String) :
    ∃ b, objGet (appendToStorage stored nd now).1 "success" = some (.vbool b) := by
  rw [appendToStorage]
  cases hload : loadedArray stored with
  | none => exact ⟨false, rfl⟩
  | some arr => exact ⟨true, rfl⟩

theorem saveFeedPosts_success (stored : Option JVal) (batch : List JVal) (now : String) :
    ∃ b, objGet (saveFeedPostsToStorage stored batch now).1 "success" = some (.vbool b) := by
  rw [saveFeedPostsToStorage]
  by_cases hb : batch.isEmpty = true
  · rw [if_pos hb]
    exact ⟨true, rfl⟩
  · rw [if_neg hb]
    cases hload : loadedArray stored with
    | none => exact ⟨false, rfl⟩
    | some loaded => exact ⟨true, rfl⟩

theorem saveComments_success (stored : Option JVal) (batch : List JVal) (now : String) :
    ∃ b, objGet (saveCommentsToStorage stored batch now).1 "success" = some (.vbool b) := by
  rw [saveCommentsToStorage]
  by_cases hb : batch.isEmpty = true
  · rw [if_pos hb]
    exact ⟨true, rfl⟩
  · rw [if_neg hb]
    cases hload : loadedArray (storedListField stored "comments") with
    | none => exact ⟨false, rfl⟩
    | some loaded => exact ⟨true, rfl⟩

theorem saveMyPosts_success (stored : Option JVal) (batch : List JVal) (now : String) :
    ∃ b, objGet (saveMyPostsToStorage stored batch now).1 "success" = some (.vbool b) := by
  rw [saveMyPostsToStorage]
  by_cases hb : batch.isEmpty = true
  · rw [if_pos hb]
    exact ⟨true, rfl⟩
  · rw [if_neg hb]
    cases hload : loadedArray (storedListField stored "posts") with
    | none => exact ⟨false, rfl⟩
    | some loaded => exact ⟨true, rfl⟩

theorem saveTrending_success (stored : Option JVal) (batch : List JVal) (now : String) :
    ∃ b, objGet (saveTrendingToStorage stored batch now).1 "success" = some (.vbool b) := by
  rw [saveTrendingToStorage]
  by_cases hb : batch.isEmpty = true
  · rw [if_pos hb]
    exact ⟨true, rfl⟩
  · rw [if_neg hb]
    cases hload : loadedArray (storedListField stored "topics") with
    | none => exact ⟨false, rfl⟩
    | some loaded => exact ⟨true, rfl⟩

theorem savePostAnalytics_success (stored : Option JVal) (nd : Option JVal) (now : String) :
    ∃ b, objGet (savePostAnalyticsToStorage stored nd now).1 "success" = some (.vbool b) := by
  rw [savePostAnalyticsToStorage]
  by_cases hg : (!truthy (nd.bind (fun d => d.getF "activityUrn"))) = true
  · rw [if_pos hg]
    exact ⟨false, rfl⟩
  · rw [if_neg hg]
    cases hload : loadedArray (storedListField stored "posts") with
    | none => exact ⟨false, rfl⟩
    | some loaded => exact ⟨true, rfl⟩

theorem saveFollowers_success (stored : Option JVal) (nd : Option JVal) (now : String) :
    ∃ b, objGet (saveFollowersToStorage stored nd now).1 "success" = some (.vbool b) := by
  rw [saveFollowersToStorage]
  by_cases hg : (!truthy nd) = true
  · rw [if_pos hg]
    exact ⟨true, rfl⟩
  · rw [if_neg hg]
    dsimp only
    repeat' split
    all_goals first
      | exact ⟨false, rfl⟩
      | exact ⟨true, rfl⟩

/-- C9 counterexample: the CHECK_AUTH handler replies with
`checkAuthentication`'s object, which has no `success` field at all —
refuting "every response contains a boolean success field". -/
theorem c9_counterexample :
    HandlesTo "CHECK_AUTH" (checkAuthentication .vnull)
    ∧ (checkAuthentication .vnull).getF "success" = none
    ∧ (checkAuthentication .vnull).getF "isAuthenticated" = some (.vbool false) :=
  ⟨HandlesTo.checkAuth .vnull, rfl, rfl⟩

/-- C9 (amended): every response of the message dispatcher EXCEPT the
CHECK_AUTH reply carries a boolean `success` field (payload on success,
`error` string on failure per the return shapes); an unknown message
type receives the structured failure
`{success: false, error: "Unknown message type"}` and nothing is thrown;
the CHECK_AUTH reply is `{isAuthenticated, token}` with no `success`
field. -/
theorem c9_amended :
    (∀ t r, HandlesTo t r → t ≠ "CHECK_AUTH" →
      ∃ b, r.getF "success" = some (.vbool b))
    ∧ (∀ t, ¬ t ∈ knownMessageTypes →
        HandlesTo t (.vobj (respFail "Unknown message type"))
        ∧ objGet (respFail "Unknown message type") "success" = some (.vbool false))
    ∧ (∀ authToken, HandlesTo "CHECK_AUTH" (checkAuthentication authToken)
        ∧ (checkAuthentication authToken).getF "success" = none) := by
  refine ⟨?_, ?_, ?_⟩
  · intro t r h hne
    cases h with
    | ok t h ht payload => exact ⟨true, rfl⟩
    | err t h ht e rest => exact ⟨false, rfl⟩
    | checkAuth authToken => exact absurd rfl hne
    | appendData stored nd now => exact appendToStorage_success stored nd now
    | apiCaptured stored endpoint method respData url now =>
      exact appendToStorage_success stored _ now
    | postAnalyticsCaptured stored nd now => exact savePostAnalytics_success stored nd now
    | saveFeedPosts stored posts now => exact saveFeedPosts_success stored posts now
    | saveComments stored comments now => exact saveComments_success stored comments now
    | saveMyPosts stored posts now => exact saveMyPosts_success stored posts now
    | saveFollowers stored nd now => exact saveFollowers_success stored nd now
    | saveTrending stored topics now => exact saveTrending_success stored topics now
    | unknown t h => exact ⟨false, rfl⟩
  · intro t h
    exact ⟨HandlesTo.unknown t h, rfl⟩
  · intro authToken
    exact ⟨HandlesTo.checkAuth authToken, rfl⟩

/-- Witness for C9 (amended): a concrete SAVE_TRENDING response carries
a boolean `success`. -/
theorem c9_witness :
    ∃ b, (JVal.vobj (saveTrendingToStorage none [topicAi] "T1").1).getF "success"
      = some (.vbool b) :=
  c9_amended.1 "SAVE_TRENDING" (.vobj (saveTrendingToStorage none [topicAi] "T1").1)
    (HandlesTo.saveTrending none [topicAi] "T1") (by decide)
